import Mathlib

/-!
A shallow embedding of the patch engine implemented in `patcher_core.py`
(class `Patcher`), together with theorems checking the specification's
claims about it.

Modelling conventions:
* Python strings are modelled as `Str := List Char`.
* The filesystem is a partial map `FS := Str → Option Str` from paths to
  file contents; directories are modelled separately by a predicate where
  needed.  `pathlib` path normalisation is not modelled: paths are plain
  strings.
* Python floats are modelled as exact rationals (`Rat`).
* SHA-256 (`hashlib.sha256(...).hexdigest()`) is modelled as an injective
  digest function (`digest`), reflecting collision-freeness.
* Python's `\w` character class is modelled as ASCII alphanumeric plus
  underscore, `\s` as `Char.isWhitespace`.
-/

set_option maxRecDepth 8192

namespace Patcher

abbrev Str := List Char

/-- Python `\s` / `str.isspace` for a single character. -/
def isWS (c : Char) : Bool := c.isWhitespace

/-- Python `\w` (word character) for a single character. -/
def isWordChar (c : Char) : Bool := c.isAlphanum || c == '_'

/-- Python `str.strip()`: remove leading and trailing whitespace. -/
def stripWS (s : Str) : Str := ((s.dropWhile isWS).reverse.dropWhile isWS).reverse

/-- `occAt hay sub p`: `sub` occurs in `hay` at index `p`. -/
def occAt (hay sub : Str) (p : Nat) : Bool := sub.isPrefixOf (hay.drop p)

/-- All indices at which `sub` occurs in `hay`, in increasing order. -/
def occPositions (hay sub : Str) : List Nat :=
  (List.range (hay.length + 1)).filter (occAt hay sub)

/-- Number of (possibly overlapping) occurrence positions of `sub` in `hay`. -/
def occCount (hay sub : Str) : Nat := (occPositions hay sub).length

/-- Python `hay.find(sub)` (as an `Option`): index of the leftmost occurrence. -/
def firstOcc (hay sub : Str) : Option Nat := (occPositions hay sub).head?

/-- Python `sub in hay`. -/
def isSubstr (hay sub : Str) : Bool := (firstOcc hay sub).isSome

/-- Python `hay.replace(old, new, 1)`: replace the leftmost occurrence. -/
def replaceFirst (hay old new : Str) : Str :=
  match firstOcc hay old with
  | none => hay
  | some p => hay.take p ++ new ++ hay.drop (p + old.length)

/-- Greedy left-to-right selection of non-overlapping intervals from a list of
candidate `(start, stop)` intervals sorted by start; this is how both
`str.count` and `re.finditer` consume a string. -/
def selectNO : List (Nat × Nat) → Nat → List (Nat × Nat)
  | [], _ => []
  | (s, e) :: rest, lo => if lo ≤ s then (s, e) :: selectNO rest e else selectNO rest lo

/-- Python `hay.count(sub)`: number of non-overlapping occurrences, scanning
left to right. -/
def pyCount (hay sub : Str) : Nat :=
  (selectNO ((occPositions hay sub).map (fun p => (p, p + sub.length))) 0).length

/-- Python `s.split('\n')` (always returns at least one piece). -/
def splitNL : Str → List Str
  | [] => [[]]
  | c :: rest =>
    if c = '\n' then [] :: splitNL rest
    else
      match splitNL rest with
      | h :: t => (c :: h) :: t
      | [] => [[c]]

/-- Python `'\n'.join(ls)`. -/
def joinNL (ls : List Str) : Str := List.intercalate ['\n'] ls

/-- Count of newline characters, as in Python `s.count('\n')`. -/
def countNL (s : Str) : Nat := s.countP (fun c => c == '\n')

/-- One decimal digit character. -/
def digitChar (d : Nat) : Char := Char.ofNat (48 + d % 10)

/-- Decimal rendering, fuelled so that it reduces by computation
(`n + 1` units of fuel always suffice). -/
def natStrF : Nat → Nat → Str
  | 0, _ => []
  | fuel + 1, n => if n < 10 then [digitChar n] else natStrF fuel (n / 10) ++ [digitChar n]

/-- Decimal rendering of a natural number. -/
def natStr (n : Nat) : Str := natStrF (n + 1) n

/-- Python format `{:4d}`: right-align in (at least) four columns. -/
def pad4 (s : Str) : Str := List.replicate (4 - s.length) ' ' ++ s

/-- `Patcher._get_context_window(content, start_line, window_size)`:
lines `max(0, L - w/2) ..< min(len, L + w/2)` rendered as
`{marker} {i+1:4d} | {line}` with the candidate line `L` marked `>>>`. -/
def ctxWindow (content : Str) (startLine windowSize : Nat) : Str :=
  let lines := splitNL content
  let start := startLine - windowSize / 2
  let stop := min lines.length (startLine + windowSize / 2)
  joinNL ((List.range' start (stop - start)).map fun i =>
    (if i = startLine then ">>>".data else "   ".data) ++ [' '] ++
      pad4 (natStr (i + 1)) ++ " | ".data ++ (lines.getD i []))

/-! ## Filesystem and hashing -/

/-- The filesystem: a map from paths to file contents. -/
abbrev FS := Str → Option Str

def fsWrite (fs : FS) (p c : Str) : FS := fun q => if q = p then some c else fs q

def fsErase (fs : FS) (p : Str) : FS := fun q => if q = p then none else fs q

/-- Model of `hashlib.sha256(bytes).hexdigest()`: an injective digest whose
output never equals the sentinel `"EMPTY"` (it starts with `'#'`). -/
def digest (s : Str) : Str := '#' :: s

/-- `Patcher._calculate_hash(filepath)`. -/
def calculateHash (fs : FS) (p : Str) : Str :=
  match fs p with
  | none => "EMPTY".data
  | some c => digest c

/-- `Path(p).name`: the final path component. -/
def baseName (p : Str) : Str := (p.reverse.takeWhile (fun c => c != '/')).reverse

/-- `Path(p).parent` rendered as a string (`"."` when there is no slash). -/
def parentDir (p : Str) : Str :=
  let r := p.reverse.dropWhile (fun c => c != '/')
  if r = [] then ".".data else (r.drop 1).reverse

/-- Backup file path used by `apply_patches`:
`BACKUP_DIR / f"{filepath.name}_{timestamp}.bak"`. -/
def backupPath (p : Str) (ts : Nat) : Str :=
  ".ai_backups/".data ++ baseName p ++ ['_'] ++ natStr ts ++ ".bak".data

/-! ## Ignore policy (`Patcher._is_ignored`)

The source builds a regex from the pattern by
`pattern.replace('.', '\\.').replace('*', '.*').replace('?', '.')` and tests
it with `re.match` (anchored at the start of the path only).  We model the
generated regex for patterns whose characters other than `*`, `?`, `.` carry
no regex meaning (true of all default `.patchignore` patterns). -/

/-- One element of the generated regex: a literal character, `.` (any
character except newline), or `.*`. -/
inductive RElem where
  | lit (c : Char)
  | anyc
  | star
deriving DecidableEq

/-- Compile an ignore pattern the way `_is_ignored` builds its regex:
`*` becomes `.*`, `?` becomes `.`, every other character (including `.`,
which the source escapes) is a literal. -/
def compilePat (pat : Str) : List RElem :=
  pat.map fun c => if c = '*' then .star else if c = '?' then .anyc else .lit c

/-- Regex `.` semantics (no DOTALL here): any character except newline. -/
def reDot (c : Char) : Bool := c != '\n'

/-- `re.match(pattern, s)`, fuelled (each step shrinks `ps.length + s.length`,
so `ps.length + s.length + 1` units of fuel suffice): does the regex match
some prefix of `s`? -/
def reMatchF : Nat → List RElem → Str → Bool
  | 0, _, _ => false
  | _ + 1, [], _ => true
  | _ + 1, .lit _ :: _, [] => false
  | fuel + 1, .lit c :: ps, a :: s => a == c && reMatchF fuel ps s
  | _ + 1, .anyc :: _, [] => false
  | fuel + 1, .anyc :: ps, a :: s => reDot a && reMatchF fuel ps s
  | fuel + 1, .star :: ps, s =>
    reMatchF fuel ps s ||
      (match s with
       | [] => false
       | a :: s' => reDot a && reMatchF fuel (.star :: ps) s')

/-- `re.match(pattern, s)`: does the regex match some prefix of `s`? -/
def reMatch (ps : List RElem) (s : Str) : Bool := reMatchF (ps.length + s.length + 1) ps s

/-- Full-anchor variant of `reMatchF`: does the regex match all of `s`? -/
def reFullF : Nat → List RElem → Str → Bool
  | 0, _, _ => false
  | _ + 1, [], s => s.isEmpty
  | _ + 1, .lit _ :: _, [] => false
  | fuel + 1, .lit c :: ps, a :: s => a == c && reFullF fuel ps s
  | _ + 1, .anyc :: _, [] => false
  | fuel + 1, .anyc :: ps, a :: s => reDot a && reFullF fuel ps s
  | fuel + 1, .star :: ps, s =>
    reFullF fuel ps s ||
      (match s with
       | [] => false
       | a :: s' => reDot a && reFullF fuel (.star :: ps) s')

/-- Full-anchor regex match. -/
def reFull (ps : List RElem) (s : Str) : Bool := reFullF (ps.length + s.length + 1) ps s

/-- `Patcher._is_ignored(filepath)`: patterns containing `*` are matched as
the generated regex anchored at the start of the path; all other patterns
(including ones containing `?`) are plain substring tests. -/
def isIgnored (pats : List Str) (path : Str) : Bool :=
  pats.any fun pat =>
    if pat.contains '*' then reMatch (compilePat pat) path
    else isSubstr path pat

/-- Shell-style glob (`fnmatch`-like, `*`/`?` only), fuelled. -/
def specGlobF : Nat → Str → Str → Bool
  | 0, _, _ => false
  | _ + 1, [], s => s.isEmpty
  | fuel + 1, '*' :: ps, s =>
    specGlobF fuel ps s ||
      (match s with
       | [] => false
       | _ :: s' => specGlobF fuel ('*' :: ps) s')
  | _ + 1, '?' :: _, [] => false
  | fuel + 1, '?' :: ps, _ :: s => specGlobF fuel ps s
  | _ + 1, _ :: _, [] => false
  | fuel + 1, c :: ps, a :: s => a == c && specGlobF fuel ps s

/-- Shell-style glob matching the whole string.  This follows the
specification's words, for comparison with the source's `isIgnored`. -/
def specGlob (ps s : Str) : Bool := specGlobF (ps.length + s.length + 1) ps s

/-- The ignore check as the specification words it: any pattern containing
`*` or `?` is a glob anchored against the full path, the rest are substring
tests. -/
def specIgnored (pats : List Str) (path : Str) : Bool :=
  pats.any fun pat =>
    if pat.contains '*' || pat.contains '?' then specGlob pat path
    else isSubstr path pat

/-! ## Whitespace-flexible matching (`Patcher._generate_flexible_regex`)

The source tokenizes the stripped search text with
`re.findall(r"[\w]+|[^\s\w]", text)`, escapes each token and joins them with
`\s*`, then runs `re.finditer(pattern, content, re.DOTALL)`.  Because every
token starts with a non-whitespace character, the greedy `\s*` between two
tokens deterministically consumes the maximal whitespace run, so the regex
search is modelled by the deterministic matcher below. -/

/-- Fuelled tokenizer (`s.length + 1` units of fuel always suffice). -/
def tokenizeF : Nat → Str → List Str
  | 0, _ => []
  | _ + 1, [] => []
  | fuel + 1, c :: rest =>
    if isWordChar c then
      (c :: rest.takeWhile isWordChar) :: tokenizeF fuel (rest.dropWhile isWordChar)
    else if isWS c then tokenizeF fuel rest
    else [c] :: tokenizeF fuel rest

/-- `re.findall(r"[\w]+|[^\s\w]", s)`: maximal word-character runs and single
non-space non-word characters, left to right. -/
def tokenize (s : Str) : List Str := tokenizeF (s.length + 1) s

/-- The token list of `_generate_flexible_regex(search)` (which strips its
input before tokenizing); the generated pattern is empty iff this is `[]`. -/
def flexTokens (s : Str) : List Str := tokenize (stripWS s)

/-- Match the pattern `t₁\s*t₂\s*…\s*tₙ` at the start of `s`; returns the
number of characters consumed. -/
def matchTokens : List Str → Str → Option Nat
  | [], _ => some 0
  | [t], s => if t.isPrefixOf s then some t.length else none
  | t :: ts, s =>
    if t.isPrefixOf s then
      let s1 := s.drop t.length
      let w := (s1.takeWhile isWS).length
      match matchTokens ts (s1.drop w) with
      | some n => some (t.length + w + n)
      | none => none
    else none

/-- All `(start, stop)` pairs at which the flexible pattern matches. -/
def flexAll (ts : List Str) (cs : Str) : List (Nat × Nat) :=
  (List.range (cs.length + 1)).filterMap fun p =>
    (matchTokens ts (cs.drop p)).map fun n => (p, p + n)

/-- `re.finditer` of the flexible pattern over `cs`: leftmost matches,
non-overlapping. -/
def flexMatch (ts : List Str) (cs : Str) : List (Nat × Nat) := selectNO (flexAll ts cs) 0

/-- The substring of `cs` between indices `s` and `e` (a regex match's
`group(0)`). -/
def sliceStr (cs : Str) (s e : Nat) : Str := (cs.drop s).take (e - s)

/-! ## Similarity (`Patcher._calculate_similarity`)

`' '.join(text.split())` collapses whitespace runs; the two collapsed
strings are compared with `difflib.SequenceMatcher(...).ratio()`, scaled to
0–100.  `ratio` is `2·M/T` where `M` is the total size of the matching
blocks found by recursive longest-contiguous-match and `T` the total
length.  We implement the documented algorithm (longest block, ties broken
towards the smallest index in `a`, then in `b`); `difflib`'s autojunk
heuristic (only active for strings of 200+ characters) is not modelled. -/

/-- Fuelled variant of Python `s.split()`. -/
def pySplitF : Nat → Str → List Str
  | 0, _ => []
  | _ + 1, [] => []
  | fuel + 1, c :: rest =>
    if isWS c then pySplitF fuel rest
    else (c :: rest.takeWhile (fun x => !isWS x)) ::
      pySplitF fuel (rest.dropWhile (fun x => !isWS x))

/-- Python `s.split()`: split on whitespace runs, dropping empty pieces. -/
def pySplit (s : Str) : List Str := pySplitF (s.length + 1) s

/-- `' '.join(s.split())`. -/
def collapseWS (s : Str) : Str := List.intercalate [' '] (pySplit s)

/-- Length of the longest common prefix of two strings. -/
def commonRun : Str → Str → Nat
  | a :: as, b :: bs => if a == b then commonRun as bs + 1 else 0
  | _, _ => 0

/-- `SequenceMatcher.find_longest_match` on `a[alo:ahi]` / `b[blo:bhi]`
(no junk): the longest matching block `(i, j, k)`, ties broken towards the
smallest `i`, then the smallest `j`. -/
def findLongestMatch (a b : Str) (alo ahi blo bhi : Nat) : Nat × Nat × Nat :=
  ((List.range' alo (ahi - alo)).flatMap fun i =>
      (List.range' blo (bhi - blo)).map fun j =>
        (i, j, commonRun ((a.drop i).take (ahi - i)) ((b.drop j).take (bhi - j)))).foldl
    (fun best cand => if cand.2.2 > best.2.2 then cand else best) (alo, blo, 0)

/-- Total size `M` of the matching blocks of `SequenceMatcher`
(`get_matching_blocks`), fuel-based recursion. -/
def matchSum (a b : Str) : Nat → Nat → Nat → Nat → Nat → Nat
  | 0, _, _, _, _ => 0
  | fuel + 1, alo, ahi, blo, bhi =>
    let (i, j, k) := findLongestMatch a b alo ahi blo bhi
    if k = 0 then 0
    else matchSum a b fuel alo i blo j + k + matchSum a b fuel (i + k) ahi (j + k) bhi

/-- `SequenceMatcher(None, a, b).ratio() * 100` as an exact rational
(`Rat.divInt m t = m / t`). -/
def simRatio (a b : Str) : Rat :=
  let M := matchSum a b (a.length + b.length + 1) 0 a.length 0 b.length
  let T := a.length + b.length
  if T = 0 then 100 else Rat.divInt (200 * M) T

/-- `Patcher._calculate_similarity(text1, text2)` (0–100). -/
def calcSimilarity (t1 t2 : Str) : Rat := simRatio (collapseWS t1) (collapseWS t2)

/-! ## Fuzzy window search (`Patcher._find_best_match`) -/

/-- The window of `slen` lines starting at line index `i`, joined with
newlines. -/
def winText (lines : List Str) (slen i : Nat) : Str := joinNL ((lines.drop i).take slen)

/-- Similarity of the search text against window `i`. -/
def winScore (search : Str) (lines : List Str) (slen i : Nat) : Rat :=
  calcSimilarity search (winText lines slen i)

/-- The loop of `_find_best_match`: state `(best_match, best_line, best_score)`,
replaced only on a strictly greater score. -/
def fbmAux (search : Str) (lines : List Str) (slen : Nat) :
    List Nat → Option Str × Option Nat × Rat → Option Str × Option Nat × Rat
  | [], st => st
  | i :: is, (bm, bl, bs) =>
    let sc := winScore search lines slen i
    if sc > bs then fbmAux search lines slen is (some (winText lines slen i), some (i + 1), sc)
    else fbmAux search lines slen is (bm, bl, bs)

/-- `Patcher._find_best_match(search_text, content)`:
`(best_matched_text, best_line, best_score)`. -/
def findBestMatch (search content : Str) : Option Str × Option Nat × Rat :=
  let lines := splitNL content
  let slen := (splitNL search).length
  fbmAux search lines slen (List.range (lines.length + 1 - slen)) (none, none, 0)

/-! ## Data model -/

/-- `PatchBlock` (dataclass). -/
structure PatchBlock where
  filename : Str
  search_block : Str
  replace_block : Str
  valid_match : Option Str
  line_number : Option Nat
  match_quality : Rat
  enabled : Bool
deriving DecidableEq

/-- `PatchStatus` (dataclass).  The fields `diff_preview` and `suggestions`
are pure renderings never consulted by the engine and are not modelled;
numeric interpolations inside message texts are elided. -/
structure PatchStatus where
  filename : Str
  status : String
  message : String
  line_number : Option Nat
  similarity_score : Option Rat
  error_context : Option Str
  file_content_preview : Option Str
deriving DecidableEq

/-- One element of a transaction record's `files` list. -/
structure FileEntry where
  path : Str
  action : String
  backup : Option Str
  post_hash : Option Str
  pre_hash : Option Str
  line_number : Option Nat
deriving DecidableEq

/-- One entry of the history log (`history_entry` in `apply_patches`). -/
structure TransRecord where
  timestamp : Nat
  files : List FileEntry
deriving DecidableEq

/-- Python truthiness of `Optional[str]`: `None` and `""` are falsy. -/
def optTruthy : Option Str → Bool
  | none => false
  | some s => !s.isEmpty

/-! ## Analyzer (`Patcher.analyze_blocks`) -/

def msgIgnored : String := "File is protected by .patchignore"
def msgParentCreated : String := "Parent directory will be created."
def msgNewFile : String := "New file will be created."
def msgNotFound : String := "File not found (SEARCH block must be empty for new files)."
def msgWillDelete : String := "File will be deleted."
def msgEmptySearch : String := "SEARCH block is empty for existing file."
def msgExact : String := "Exact match found."
def msgAmbiguous : String := "Ambiguous! Found several exact matches."
def msgWhitespace : String := "Match found (whitespace differences)."
def msgSimilarBlocks : String := "Found several similar blocks."
def msgFuzzy : String := "Fuzzy match."
def msgNoMatch : String := "No match found."

/-- The fuzzy last-resort stage of `analyze_blocks` (reading a file is
modelled as always succeeding, so the `read_text` error branch is absent). -/
def fuzzyStage (b : PatchBlock) (content : Str) : PatchBlock × PatchStatus :=
  let r := findBestMatch b.search_block content
  let bm := r.1
  let bl := r.2.1
  let bs := r.2.2
  if bs ≥ 80 then
    ({ b with valid_match := bm, line_number := bl, match_quality := bs },
     ⟨b.filename, "warning", msgFuzzy, bl, some bs,
      some (ctxWindow content ((bl.getD 1) - 1) 15), none⟩)
  else
    match bl with
    | some l =>
      (b, ⟨b.filename, "error", msgNoMatch, none, none,
           some (ctxWindow content (l - 1) 20), some content⟩)
    | none =>
      (b, ⟨b.filename, "error", msgNoMatch, none, none,
           some (content.take 500), some content⟩)

/-- One iteration of the `analyze_blocks` loop: returns the (possibly
enriched) block and its verdict.  `dirs` tells which directories exist. -/
def analyzeBlock (pats : List Str) (dirs : Str → Bool) (fs : FS) (b : PatchBlock) :
    PatchBlock × PatchStatus :=
  if isIgnored pats b.filename then
    (b, ⟨b.filename, "error", msgIgnored, none, none, none, none⟩)
  else
    match fs b.filename with
    | none =>
      if stripWS b.search_block = [] then
        if !dirs (parentDir b.filename) then
          (b, ⟨b.filename, "warning", msgParentCreated, none, none, none, none⟩)
        else
          (b, ⟨b.filename, "success", msgNewFile, none, none, none, none⟩)
      else
        (b, ⟨b.filename, "error", msgNotFound, none, none, none, none⟩)
    | some content =>
      if stripWS b.replace_block = [] then
        (b, ⟨b.filename, "warning", msgWillDelete, none, none, none, none⟩)
      else if stripWS b.search_block = [] then
        (b, ⟨b.filename, "error", msgEmptySearch, none, none, none, none⟩)
      else if isSubstr content b.search_block then
        let cnt := pyCount content b.search_block
        let pos := (firstOcc content b.search_block).getD 0
        let fml := countNL (content.take pos)
        if cnt = 1 then
          ({ b with valid_match := some b.search_block, line_number := some (fml + 1),
                    match_quality := 100 },
           ⟨b.filename, "success", msgExact, some (fml + 1), some 100, none, none⟩)
        else
          (b, ⟨b.filename, "error", msgAmbiguous, none, none,
               some (ctxWindow content fml 15), some (content.take 1000)⟩)
      else
        let ts := flexTokens b.search_block
        if ts = [] then fuzzyStage b content
        else
          match flexMatch ts content with
          | [] => fuzzyStage b content
          | [(s, e)] =>
            let found := sliceStr content s e
            let ln := countNL (content.take s) + 1
            ({ b with valid_match := some found, line_number := some ln, match_quality := 95 },
             ⟨b.filename, "warning", msgWhitespace, some ln, some 95, none, none⟩)
          | (s1, _) :: _ :: _ =>
            (b, ⟨b.filename, "error", msgSimilarBlocks, none, none,
                 some (ctxWindow content (countNL (content.take s1)) 15), none⟩)

/-- `analyze_blocks`: each block is analyzed independently; returns the
enriched blocks and the verdicts. -/
def analyzeBlocks (pats : List Str) (dirs : Str → Bool) (fs : FS) (bs : List PatchBlock) :
    List PatchBlock × List PatchStatus :=
  ((bs.map (analyzeBlock pats dirs fs)).map Prod.fst,
   (bs.map (analyzeBlock pats dirs fs)).map Prod.snd)

/-! ## Transactor: apply (`Patcher.apply_patches`)

Git staging (`auto_stage`) is an external collaborator and is not modelled.
Filesystem writes are modelled as always succeeding; the only raise in the
model is the preflight safety halt, which in the source happens before any
filesystem mutation and before the history file is touched, so an
`Except.error` result carries no state change. -/

/-- The preflight condition of `apply_patches` that triggers the safety
halt for a block. -/
def preflightBad (fs : FS) (b : PatchBlock) : Bool :=
  (fs b.filename).isSome && !optTruthy b.valid_match && !(stripWS b.search_block).isEmpty

/-- State threaded through the apply loop. -/
structure ApplyState where
  fs : FS
  entries : List FileEntry
  modified : List Str

/-- One iteration of the apply loop of `apply_patches`. -/
def applyBlock (ts : Nat) (st : ApplyState) (b : PatchBlock) : ApplyState :=
  match st.fs b.filename with
  | none =>
    -- create: parent dirs ensured, file written with the replace text
    let fs' := fsWrite st.fs b.filename b.replace_block
    ⟨fs',
     st.entries ++ [⟨b.filename, "create", none, some (calculateHash fs' b.filename), none, none⟩],
     st.modified ++ [b.filename]⟩
  | some content =>
    if stripWS b.replace_block = [] then
      -- delete: back up, then unlink
      let bk := backupPath b.filename ts
      let fs1 := fsWrite st.fs bk content
      let fs2 := fsErase fs1 b.filename
      ⟨fs2,
       st.entries ++ [⟨b.filename, "delete", some bk, none, some (calculateHash fs2 bk), none⟩],
       st.modified ++ [b.filename]⟩
    else
      -- modify: back up, then replace the first occurrence of valid_match
      let bk := backupPath b.filename ts
      let fs1 := fsWrite st.fs bk content
      if optTruthy b.valid_match then
        let v := b.valid_match.getD []
        let fs2 := fsWrite fs1 b.filename (replaceFirst content v b.replace_block)
        ⟨fs2,
         st.entries ++ [⟨b.filename, "modify", some bk, some (calculateHash fs2 b.filename),
                         none, b.line_number⟩],
         st.modified ++ [b.filename]⟩
      else
        -- backup written, but no modification, no record entry
        ⟨fs1, st.entries, st.modified⟩

/-- `MAX_HISTORY`. -/
def MAX_HISTORY : Nat := 50

/-- `apply_patches(blocks)` at transaction timestamp `ts`, over filesystem
`fs` and on-disk history `hist`.  Returns the new filesystem, the new
on-disk history and the list of modified paths, or the safety-halt error. -/
def applyPatches (fs : FS) (hist : List TransRecord) (blocks : List PatchBlock) (ts : Nat) :
    Except String (FS × List TransRecord × List Str) :=
  let bs := blocks.filter (fun b => b.enabled)
  match bs.find? (preflightBad fs) with
  | some _ => .error "Safety halt: block has no valid match target."
  | none =>
    let out := bs.foldl (applyBlock ts) ⟨fs, [], []⟩
    let h1 := hist ++ [⟨ts, out.entries⟩]
    let h2 := if h1.length > MAX_HISTORY then h1.drop (h1.length - MAX_HISTORY) else h1
    .ok (out.fs, h2, out.modified)

/-! ## Transactor: undo (`Patcher.undo_last`)

Filesystem operations during the restore phase can fail in reality
(`shutil.copy` / `unlink` raising `OSError`); this is modelled by failure
injection: restore-phase operations are numbered from 0 and `failAt` names
the operation that raises, `none` meaning none does.  The final
`_save_history` write is the last numbered operation. -/

def msgNoHistory : String := "No history to undo."
def msgFileGone : String := "STOP: file no longer exists."
def msgTampered : String := "STOP: file was manually modified since patch."
def msgUndoOk : String := "Successfully reverted changes."
def msgUndoError : String := "Error during undo."

/-- The verify phase: for every `modify` entry the file must exist and its
current hash must equal the recorded `post_hash`; returns the first failure
message.  (A missing `post_hash` key would raise in Python; it is treated
as a mismatch here — records written by `apply_patches` always carry it.) -/
def verifyEntries (fs : FS) : List FileEntry → Option String
  | [] => none
  | e :: rest =>
    if e.action = "modify" then
      match fs e.path with
      | none => some msgFileGone
      | some _ =>
        if some (calculateHash fs e.path) ≠ e.post_hash then some msgTampered
        else verifyEntries fs rest
    else verifyEntries fs rest

/-- The restore phase: reverse each entry's action in record order.
Returns `Sum.inl (fs, restored, opCount)` on success, or
`Sum.inr (message, fs, restoredSoFar)` when the numbered operation `failAt`
raises.  A `delete`/`modify` entry whose backup file is gone is silently
skipped, as in the source; a `delete`/`modify` entry without a `backup`
field would raise in Python and fails here. -/
def restoreEntries (failAt : Option Nat) :
    Nat → FS → List FileEntry → List Str → Sum (FS × List Str × Nat) (String × FS × List Str)
  | cnt, fs, [], acc => .inl (fs, acc, cnt)
  | cnt, fs, e :: rest, acc =>
    if e.action = "create" then
      match fs e.path with
      | some _ =>
        if failAt = some cnt then .inr (msgUndoError, fs, acc)
        else restoreEntries failAt (cnt + 1) (fsErase fs e.path) rest (acc ++ [e.path])
      | none => restoreEntries failAt cnt fs rest acc
    else if e.action = "delete" ∨ e.action = "modify" then
      match e.backup with
      | some bp =>
        match fs bp with
        | some c =>
          if failAt = some cnt then .inr (msgUndoError, fs, acc)
          else restoreEntries failAt (cnt + 1) (fsWrite fs e.path c) rest (acc ++ [e.path])
        | none => restoreEntries failAt cnt fs rest acc
      | none => .inr (msgUndoError, fs, acc)
    else restoreEntries failAt cnt fs rest acc

/-- The result of `undo_last`: the returned message and restored-file list,
plus the final filesystem and the history log as it stands on disk. -/
structure UndoResult where
  msg : String
  restored : List Str
  fs : FS
  histOnDisk : List TransRecord

/-- `undo_last()` with failure injection `failAt`.  The in-memory
`history.pop()` only reaches the disk through `_save_history`, which runs
after all restores succeed. -/
def undoLast (failAt : Option Nat) (fs : FS) (hist : List TransRecord) : UndoResult :=
  match hist.getLast? with
  | none => ⟨msgNoHistory, [], fs, hist⟩
  | some lastEntry =>
    match verifyEntries fs lastEntry.files with
    | some m => ⟨m, [], fs, hist⟩
    | none =>
      match restoreEntries failAt 0 fs lastEntry.files [] with
      | .inr (m, fs', acc) => ⟨m, acc, fs', hist⟩
      | .inl (fs', acc, cnt) =>
        if failAt = some cnt then ⟨msgUndoError, acc, fs', hist⟩
        else ⟨msgUndoOk, acc, fs', hist.dropLast⟩

/-- `TokStr ts s`: the string `s` decomposes as its token list `ts`
interleaved with (possibly empty) whitespace runs; every token starts with a
non-whitespace character.  Two strings with the same token list differ only
in runs of whitespace and intertoken spacing — this is the shape the
whitespace-flexible regex is designed to match. -/
def TokStr : List Str → Str → Prop
  | [], s => ∀ c ∈ s, isWS c = true
  | t :: ts, s => ∃ w rest h t', s = w ++ t ++ rest ∧ (∀ c ∈ w, isWS c = true) ∧
      t = h :: t' ∧ isWS h = false ∧ TokStr ts rest

/-! ## Theorems -/

/-- If some entry of the list is a `modify` whose file is gone or whose
current hash disagrees with the recorded one, the verify phase fails with a
STOP message. -/
theorem verifyEntries_fails (fs : FS) (l : List FileEntry) (e : FileEntry) (he : e ∈ l)
    (hact : e.action = "modify")
    (hbad : fs e.path = none ∨ some (calculateHash fs e.path) ≠ e.post_hash) :
    ∃ m, verifyEntries fs l = some m ∧ (m = msgFileGone ∨ m = msgTampered) := by
  induction l with
  | nil => cases he
  | cons a rest ih =>
    by_cases ha : a.action = "modify"
    · cases hfa : fs a.path with
      | none => exact ⟨msgFileGone, by simp [verifyEntries, ha, hfa], Or.inl rfl⟩
      | some c =>
        by_cases hh : some (calculateHash fs a.path) ≠ a.post_hash
        · exact ⟨msgTampered, by simp [verifyEntries, ha, hfa, hh], Or.inr rfl⟩
        · push_neg at hh
          rcases List.mem_cons.mp he with rfl | he'
          · rcases hbad with h1 | h2
            · rw [hfa] at h1; cases h1
            · exact absurd hh h2
          · obtain ⟨m, hm, hor⟩ := ih he'
            refine ⟨m, ?_, hor⟩
            simpa [verifyEntries, ha, hfa, hh] using hm
    · rcases List.mem_cons.mp he with rfl | he'
      · exact absurd hact ha
      · obtain ⟨m, hm, hor⟩ := ih he'
        refine ⟨m, ?_, hor⟩
        simpa [verifyEntries, ha] using hm

/-- C3: if any file recorded as a `modify` action in the most recent
transaction record no longer exists, or its current hash differs from the
recorded `post_hash`, then `undo_last` refuses with a STOP message, restores
no file, leaves the filesystem untouched and leaves the on-disk history log
unchanged (same records, same order). -/
theorem undo_refused_when_tampered (fs : FS) (hist : List TransRecord) (lastR : TransRecord)
    (hlast : hist.getLast? = some lastR) (e : FileEntry) (he : e ∈ lastR.files)
    (hact : e.action = "modify")
    (hbad : fs e.path = none ∨ some (calculateHash fs e.path) ≠ e.post_hash) :
    ∃ m, undoLast none fs hist = ⟨m, [], fs, hist⟩ ∧ (m = msgFileGone ∨ m = msgTampered) := by
  obtain ⟨m, hm, hor⟩ := verifyEntries_fails fs lastR.files e he hact hbad
  exact ⟨m, by simp [undoLast, hlast, hm], hor⟩

/-- Witness for C3: a one-record history whose modify entry recorded the
hash of `"x"` while the file now holds `"y"`; undo is refused and nothing
changes. -/
theorem undo_refused_when_tampered_witness :
    ∃ m, undoLast none (fun q => if q = "a".data then some "y".data else none)
        [⟨1, [⟨"a".data, "modify", some ".ai_backups/a_1.bak".data,
               some (digest "x".data), none, some 1⟩]⟩] =
      ⟨m, [], fun q => if q = "a".data then some "y".data else none,
        [⟨1, [⟨"a".data, "modify", some ".ai_backups/a_1.bak".data,
               some (digest "x".data), none, some 1⟩]⟩]⟩ ∧
      (m = msgFileGone ∨ m = msgTampered) :=
  undo_refused_when_tampered _ _ _ rfl
    ⟨"a".data, "modify", some ".ai_backups/a_1.bak".data, some (digest "x".data), none, some 1⟩
    (by simp) rfl (Or.inr (by decide))

/-- C2: `apply_patches` fails fast on preflight: if any enabled block
targets an existing file with a non-blank search block but no resolved
`valid_match`, apply raises the safety halt.  In this pure model an
`Except.error` result carries no new filesystem and no new history: the
raise happens in the source before any write, delete, create, or history
append. -/
theorem apply_preflight_halts (fs : FS) (hist : List TransRecord)
    (blocks : List PatchBlock) (ts : Nat) (b : PatchBlock)
    (hb : b ∈ blocks) (hen : b.enabled = true)
    (hex : (fs b.filename).isSome = true) (hvm : b.valid_match = none)
    (hsb : stripWS b.search_block ≠ []) :
    ∃ m, applyPatches fs hist blocks ts = .error m := by
  have hbad : preflightBad fs b = true := by
    simp [preflightBad, hvm, optTruthy, hex, List.isEmpty_iff, hsb]
  have hfind : ((blocks.filter (fun b => b.enabled)).find? (preflightBad fs)).isSome = true := by
    rw [List.find?_isSome]
    exact ⟨b, List.mem_filter.mpr ⟨hb, hen⟩, hbad⟩
  obtain ⟨b', hb'⟩ := Option.isSome_iff_exists.mp hfind
  refine ⟨"Safety halt: block has no valid match target.", ?_⟩
  simp [applyPatches, hb']

/-- Witness for C2: an enabled block for an existing file with non-blank
search and no valid match makes apply halt. -/
theorem apply_preflight_halts_witness :
    ∃ m, applyPatches (fun q => if q = "a.txt".data then some "x".data else none) []
        [⟨"a.txt".data, "zz".data, "y".data, none, none, 0, true⟩] 0 = .error m :=
  apply_preflight_halts _ _ _ _
    ⟨"a.txt".data, "zz".data, "y".data, none, none, 0, true⟩
    (by simp) rfl (by decide) rfl (by decide)

/-- C10: an enabled block for an existing file with non-blank replace and
blank search is classified `error` by the analyzer with `valid_match` left
unset, and `apply_patches` neither raises nor changes the target file: the
block passes preflight, the modified-paths list is empty, and the committed
record carries no entry for it.  (A backup copy of the unchanged file is
written as a side effect, which cannot alter the target's content.) -/
theorem blank_search_existing_noop (pats : List Str) (dirs : Str → Bool) (fs : FS)
    (hist : List TransRecord) (ts : Nat) (b : PatchBlock) (content : Str)
    (hfs : fs b.filename = some content)
    (hni : isIgnored pats b.filename = false)
    (hrep : stripWS b.replace_block ≠ [])
    (hsearch : stripWS b.search_block = [])
    (hvm : b.valid_match = none) (hen : b.enabled = true) :
    (analyzeBlock pats dirs fs b).2.status = "error" ∧
    (analyzeBlock pats dirs fs b).1.valid_match = none ∧
    ∃ fs' hist', applyPatches fs hist [b] ts = .ok (fs', hist', []) ∧
      fs' b.filename = some content ∧
      hist'.getLast?.map TransRecord.files = some [] := by
  refine ⟨?_, ?_, ?_⟩
  · simp only [analyzeBlock, hni, hfs, hrep, hsearch, Bool.false_eq_true, if_false, if_true]
  · simp only [analyzeBlock, hni, hfs, hrep, hsearch, Bool.false_eq_true, if_false, if_true]
    exact hvm
  · have hpf : preflightBad fs b = false := by
      simp [preflightBad, hsearch]
    have happ : applyBlock ts ⟨fs, [], []⟩ b =
        ⟨fsWrite fs (backupPath b.filename ts) content, [], []⟩ := by
      simp only [applyBlock, hfs, hrep, hvm, optTruthy, Bool.false_eq_true, if_false, if_true]
    refine ⟨fsWrite fs (backupPath b.filename ts) content,
      (if (hist ++ [(⟨ts, []⟩ : TransRecord)]).length > MAX_HISTORY then
        (hist ++ [(⟨ts, []⟩ : TransRecord)]).drop
          ((hist ++ [(⟨ts, []⟩ : TransRecord)]).length - MAX_HISTORY)
      else hist ++ [(⟨ts, []⟩ : TransRecord)]), ?_, ?_, ?_⟩
    · have hfil : [b].filter (fun x => x.enabled) = [b] := by simp [hen]
      have hfnd : [b].find? (preflightBad fs) = none := by simp [List.find?, hpf]
      unfold applyPatches
      dsimp only
      rw [hfil, hfnd, List.foldl_cons, List.foldl_nil, happ]
    · show (if b.filename = backupPath b.filename ts then some content else fs b.filename) =
        some content
      by_cases hbk : b.filename = backupPath b.filename ts
      · rw [if_pos hbk]
      · rw [if_neg hbk, hfs]
    · by_cases hlen : (hist ++ [(⟨ts, []⟩ : TransRecord)]).length > MAX_HISTORY
      · rw [if_pos hlen]
        have hle : (hist ++ [(⟨ts, []⟩ : TransRecord)]).length - MAX_HISTORY ≤ hist.length := by
          simp only [List.length_append, List.length_cons, List.length_nil, MAX_HISTORY]
          omega
        rw [List.drop_append_of_le_length hle, List.getLast?_concat]
        rfl
      · rw [if_neg hlen, List.getLast?_concat]
        rfl

/-- Witness for C10 at a concrete input: file `f` holds `"hi"`, the block
has a whitespace-only search and replace `"x"`. -/
theorem blank_search_existing_noop_witness :
    (analyzeBlock [] (fun _ => true) (fun q => if q = "f".data then some "hi".data else none)
      ⟨"f".data, "  ".data, "x".data, none, none, 0, true⟩).2.status = "error" ∧
    (analyzeBlock [] (fun _ => true) (fun q => if q = "f".data then some "hi".data else none)
      ⟨"f".data, "  ".data, "x".data, none, none, 0, true⟩).1.valid_match = none ∧
    ∃ fs' hist',
      applyPatches (fun q => if q = "f".data then some "hi".data else none) []
        [⟨"f".data, "  ".data, "x".data, none, none, 0, true⟩] 5 = .ok (fs', hist', []) ∧
      fs' "f".data = some "hi".data ∧
      hist'.getLast?.map TransRecord.files = some [] :=
  blank_search_existing_noop [] (fun _ => true) _ [] 5
    ⟨"f".data, "  ".data, "x".data, none, none, 0, true⟩ "hi".data
    rfl rfl (by decide) (by decide) rfl rfl

/-- C4 (a bug in the code): within a single apply transaction, two distinct
files sharing the basename `x.txt` are given the *same* backup path
`.ai_backups/x.txt_7.bak` — the transaction timestamp is identical for both
blocks, so it cannot disambiguate them — and the second backup copy
overwrites the first: after apply the backup file holds `"B"`, and the
content `"A"` of the first file's pre-image is in no backup.  Both history
entries point at the one colliding backup path. -/
theorem backup_collision_same_basename :
    ∃ fs' hist' mods,
      applyPatches
        (fun q => if q = "a/x.txt".data then some "A".data
                  else if q = "b/x.txt".data then some "B".data else none) []
        [⟨"a/x.txt".data, "A".data, "A2".data, some "A".data, some 1, 100, true⟩,
         ⟨"b/x.txt".data, "B".data, "B2".data, some "B".data, some 1, 100, true⟩] 7 =
        .ok (fs', hist', mods) ∧
      backupPath "a/x.txt".data 7 = backupPath "b/x.txt".data 7 ∧
      fs' (backupPath "a/x.txt".data 7) = some "B".data ∧
      (hist'.map fun r => r.files.map (fun e => e.backup)) =
        [[some (backupPath "a/x.txt".data 7), some (backupPath "a/x.txt".data 7)]] :=
  ⟨_, _, _, rfl, by decide, by decide, by decide⟩

/-- C5, counterexample to the claim as stated: a restore-phase failure does
*not* leave the record popped from the on-disk history log — `_save_history`
is only executed after all restores succeed, so the log on disk still holds
the record.  Here the first restore operation fails, the undo reports an
error with no file restored, and the on-disk log still has length 1 (the
popped log would be empty). -/
theorem undo_midfail_log_not_popped_cex :
    (undoLast (some 0)
        (fun q => if q = "a".data then some "X".data
                  else if q = "bk".data then some "Old".data else none)
        [⟨1, [⟨"a".data, "modify", some "bk".data, some (digest "X".data), none, some 1⟩]⟩]).msg
        = msgUndoError ∧
    (undoLast (some 0)
        (fun q => if q = "a".data then some "X".data
                  else if q = "bk".data then some "Old".data else none)
        [⟨1, [⟨"a".data, "modify", some "bk".data, some (digest "X".data), none, some 1⟩]⟩]).restored
        = [] ∧
    (undoLast (some 0)
        (fun q => if q = "a".data then some "X".data
                  else if q = "bk".data then some "Old".data else none)
        [⟨1, [⟨"a".data, "modify", some "bk".data, some (digest "X".data), none, some 1⟩]⟩]).histOnDisk
        = [⟨1, [⟨"a".data, "modify", some "bk".data, some (digest "X".data), none, some 1⟩]⟩] ∧
    ([⟨1, [⟨"a".data, "modify", some "bk".data, some (digest "X".data), none, some 1⟩]⟩] :
        List TransRecord).dropLast = [] := by
  refine ⟨rfl, rfl, rfl, rfl⟩

/-- C5 as amended: a failure during the restore phase of `undo_last` leaves
the on-disk history log *unchanged* (the `pop` happens only on the in-memory
copy, and `_save_history` is never reached), and the failure is reported to
the caller together with the files restored so far. -/
theorem undo_restore_failure_reports (failAt : Option Nat) (fs : FS)
    (hist : List TransRecord) (lastR : TransRecord)
    (hlast : hist.getLast? = some lastR)
    (hver : verifyEntries fs lastR.files = none)
    (m : String) (fs2 : FS) (acc : List Str)
    (hres : restoreEntries failAt 0 fs lastR.files [] = .inr (m, fs2, acc)) :
    undoLast failAt fs hist = ⟨m, acc, fs2, hist⟩ := by
  simp only [undoLast, hlast, hver, hres]

/-- Witness for the amended C5 at the concrete failing scenario. -/
theorem undo_restore_failure_reports_witness :
    undoLast (some 0)
        (fun q => if q = "a".data then some "X".data
                  else if q = "bk".data then some "Old".data else none)
        [⟨1, [⟨"a".data, "modify", some "bk".data, some (digest "X".data), none, some 1⟩]⟩] =
      ⟨msgUndoError, [],
        (fun q => if q = "a".data then some "X".data
                  else if q = "bk".data then some "Old".data else none),
        [⟨1, [⟨"a".data, "modify", some "bk".data, some (digest "X".data), none, some 1⟩]⟩]⟩ :=
  undo_restore_failure_reports (some 0)
    (fun q => if q = "a".data then some "X".data
              else if q = "bk".data then some "Old".data else none)
    [⟨1, [⟨"a".data, "modify", some "bk".data, some (digest "X".data), none, some 1⟩]⟩]
    ⟨1, [⟨"a".data, "modify", some "bk".data, some (digest "X".data), none, some 1⟩]⟩
    rfl rfl msgUndoError
    (fun q => if q = "a".data then some "X".data
              else if q = "bk".data then some "Old".data else none)
    [] rfl

/-! ### The ignore check (C8) -/

/-- `reFullF` does not depend on the fuel once it exceeds
`ps.length + s.length`. -/
theorem reFullF_congr : ∀ f1 f2 (ps : List RElem) (s : Str),
    ps.length + s.length < f1 → ps.length + s.length < f2 →
    reFullF f1 ps s = reFullF f2 ps s := by
  intro f1
  induction f1 with
  | zero => intro f2 ps s h1 _; omega
  | succ a ih =>
    intro f2 ps s h1 h2
    match f2 with
    | 0 => omega
    | b + 1 =>
      match ps with
      | [] => rfl
      | .lit c :: ps' =>
        match s with
        | [] => rfl
        | x :: s' =>
          simp only [reFullF]
          rw [ih b ps' s' (by simp only [List.length_cons] at h1 ⊢; omega)
            (by simp only [List.length_cons] at h2 ⊢; omega)]
      | .anyc :: ps' =>
        match s with
        | [] => rfl
        | x :: s' =>
          simp only [reFullF]
          rw [ih b ps' s' (by simp only [List.length_cons] at h1 ⊢; omega)
            (by simp only [List.length_cons] at h2 ⊢; omega)]
      | .star :: ps' =>
        simp only [reFullF]
        rw [ih b ps' s (by simp only [List.length_cons] at h1 ⊢; omega)
          (by simp only [List.length_cons] at h2 ⊢; omega)]
        cases s with
        | nil => rfl
        | cons x s' =>
          simp only
          rw [ih b (.star :: ps') s' (by simp only [List.length_cons] at h1 ⊢; omega)
            (by simp only [List.length_cons] at h2 ⊢; omega)]

/-- `re.match` finds a match iff the regex fully matches some prefix. -/
theorem reMatchF_iff : ∀ fuel (ps : List RElem) (s : Str), ps.length + s.length < fuel →
    (reMatchF fuel ps s = true ↔ ∃ k, k ≤ s.length ∧ reFullF fuel ps (s.take k) = true) := by
  intro fuel
  induction fuel with
  | zero => intro ps s h; omega
  | succ a ih =>
    intro ps s h
    match ps with
    | [] =>
      simp only [reMatchF, true_iff]
      exact ⟨0, Nat.zero_le _, by simp [reFullF]⟩
    | .lit c :: ps' =>
      match s with
      | [] =>
        constructor
        · intro hC; simp [reMatchF] at hC
        · rintro ⟨k, hk, hF⟩
          simp only [List.length_nil, Nat.le_zero] at hk
          subst hk
          simp [reFullF] at hF
      | x :: s' =>
        have hm : ps'.length + s'.length < a := by
          simp only [List.length_cons] at h; omega
        constructor
        · intro hC
          simp only [reMatchF, Bool.and_eq_true] at hC
          obtain ⟨hxc, hrec⟩ := hC
          obtain ⟨k, hk, hF⟩ := (ih ps' s' hm).mp hrec
          refine ⟨k + 1, by simp only [List.length_cons]; omega, ?_⟩
          simp only [List.take_succ_cons, reFullF, Bool.and_eq_true]
          exact ⟨hxc, hF⟩
        · rintro ⟨k, hk, hF⟩
          match k with
          | 0 => simp [reFullF] at hF
          | k' + 1 =>
            simp only [List.take_succ_cons, reFullF, Bool.and_eq_true] at hF
            obtain ⟨hxc, hF'⟩ := hF
            simp only [reMatchF, Bool.and_eq_true]
            refine ⟨hxc, (ih ps' s' hm).mpr ⟨k', ?_, hF'⟩⟩
            simp only [List.length_cons] at hk; omega
    | .anyc :: ps' =>
      match s with
      | [] =>
        constructor
        · intro hC; simp [reMatchF] at hC
        · rintro ⟨k, hk, hF⟩
          simp only [List.length_nil, Nat.le_zero] at hk
          subst hk
          simp [reFullF] at hF
      | x :: s' =>
        have hm : ps'.length + s'.length < a := by
          simp only [List.length_cons] at h; omega
        constructor
        · intro hC
          simp only [reMatchF, Bool.and_eq_true] at hC
          obtain ⟨hxc, hrec⟩ := hC
          obtain ⟨k, hk, hF⟩ := (ih ps' s' hm).mp hrec
          refine ⟨k + 1, by simp only [List.length_cons]; omega, ?_⟩
          simp only [List.take_succ_cons, reFullF, Bool.and_eq_true]
          exact ⟨hxc, hF⟩
        · rintro ⟨k, hk, hF⟩
          match k with
          | 0 => simp [reFullF] at hF
          | k' + 1 =>
            simp only [List.take_succ_cons, reFullF, Bool.and_eq_true] at hF
            obtain ⟨hxc, hF'⟩ := hF
            simp only [reMatchF, Bool.and_eq_true]
            refine ⟨hxc, (ih ps' s' hm).mpr ⟨k', ?_, hF'⟩⟩
            simp only [List.length_cons] at hk; omega
    | .star :: ps' =>
      have hm1 : ps'.length + s.length < a := by
        simp only [List.length_cons] at h; omega
      match s with
      | [] =>
        simp only [reMatchF, Bool.or_false]
        constructor
        · intro hC
          obtain ⟨k, hk, hF⟩ := (ih ps' [] hm1).mp hC
          simp only [List.length_nil, Nat.le_zero] at hk
          subst hk
          refine ⟨0, le_refl _, ?_⟩
          simp only [List.take_nil, reFullF, Bool.or_false]
          exact hF
        · rintro ⟨k, hk, hF⟩
          simp only [List.length_nil, Nat.le_zero] at hk
          subst hk
          simp only [List.take_nil, reFullF, Bool.or_false] at hF
          exact (ih ps' [] hm1).mpr ⟨0, le_refl _, hF⟩
      | x :: s' =>
        have hm2 : (RElem.star :: ps').length + s'.length < a := by
          simp only [List.length_cons] at h ⊢; omega
        constructor
        · intro hC
          simp only [reMatchF, Bool.or_eq_true, Bool.and_eq_true] at hC
          rcases hC with hC | ⟨hdot, hC⟩
          · obtain ⟨k, hk, hF⟩ := (ih ps' (x :: s') hm1).mp hC
            refine ⟨k, hk, ?_⟩
            cases k with
            | zero =>
              simp only [List.take_zero, reFullF, Bool.or_eq_true] at hF ⊢
              exact Or.inl hF
            | succ k' =>
              simp only [List.take_succ_cons, reFullF, Bool.or_eq_true] at hF ⊢
              exact Or.inl hF
          · obtain ⟨k, hk, hF⟩ := (ih (.star :: ps') s' hm2).mp hC
            refine ⟨k + 1, by simp only [List.length_cons]; omega, ?_⟩
            simp only [List.take_succ_cons, reFullF, Bool.or_eq_true, Bool.and_eq_true]
            exact Or.inr ⟨hdot, hF⟩
        · rintro ⟨k, hk, hF⟩
          simp only [reMatchF, Bool.or_eq_true, Bool.and_eq_true]
          cases k with
          | zero =>
            simp only [List.take_zero, reFullF, Bool.or_false] at hF
            exact Or.inl ((ih ps' (x :: s') hm1).mpr ⟨0, Nat.zero_le _, by
              simpa only [List.take_zero] using hF⟩)
          | succ k' =>
            simp only [List.take_succ_cons, reFullF, Bool.or_eq_true, Bool.and_eq_true] at hF
            rcases hF with hF | ⟨hdot, hF⟩
            · exact Or.inl ((ih ps' (x :: s') hm1).mpr ⟨k' + 1, hk, by
                simpa only [List.take_succ_cons] using hF⟩)
            · refine Or.inr ⟨hdot, (ih (.star :: ps') s' hm2).mpr ⟨k', ?_, hF⟩⟩
              simp only [List.length_cons] at hk; omega

/-- The wrapper-level version: `re.match` succeeds iff the regex fully
matches some prefix of the string. -/
theorem reMatch_iff_front_full (ps : List RElem) (s : Str) :
    reMatch ps s = true ↔ ∃ pre, pre <+: s ∧ reFull ps pre = true := by
  unfold reMatch
  rw [reMatchF_iff (ps.length + s.length + 1) ps s (by omega)]
  constructor
  · rintro ⟨k, hk, hF⟩
    refine ⟨s.take k, List.take_prefix _ _, ?_⟩
    unfold reFull
    rw [reFullF_congr _ (ps.length + s.length + 1) ps (s.take k)
      (by omega) (by simp only [List.length_take]; omega)]
    exact hF
  · rintro ⟨pre, hpre, hF⟩
    have htake : pre = s.take pre.length := List.prefix_iff_eq_take.mp hpre
    refine ⟨pre.length, hpre.length_le, ?_⟩
    rw [htake] at hF
    unfold reFull at hF
    rw [reFullF_congr (ps.length + (s.take pre.length).length + 1)
      (ps.length + s.length + 1) ps (s.take pre.length)
      (by omega) (by simp only [List.length_take]; omega)] at hF
    exact hF

/-- `sub in hay` (Python) holds iff `hay` decomposes around `sub`. -/
theorem isSubstr_iff (hay sub : Str) :
    isSubstr hay sub = true ↔ ∃ l r, hay = l ++ sub ++ r := by
  unfold isSubstr firstOcc occPositions
  rw [Option.isSome_iff_ne_none, Ne, List.head?_eq_none_iff]
  constructor
  · intro hne
    obtain ⟨p, hp⟩ := List.exists_mem_of_ne_nil _ hne
    have hpm := List.mem_filter.mp hp
    obtain ⟨hpr, hocc⟩ := hpm
    have hpre : sub <+: hay.drop p := by
      have := hocc
      unfold occAt at this
      exact List.isPrefixOf_iff_prefix.mp this
    obtain ⟨r, hr⟩ := hpre
    exact ⟨hay.take p, r, by rw [List.append_assoc, hr, List.take_append_drop]⟩
  · rintro ⟨l, r, rfl⟩
    intro hnil
    have hmem : l.length ∈ (List.range ((l ++ sub ++ r).length + 1)).filter
        (occAt (l ++ sub ++ r) sub) := by
      rw [List.mem_filter]
      refine ⟨List.mem_range.mpr (by simp; omega), ?_⟩
      unfold occAt
      rw [List.isPrefixOf_iff_prefix, List.append_assoc, List.drop_left]
      exact ⟨r, rfl⟩
    rw [hnil] at hmem
    cases hmem

/-- C8, counterexample to the claim as stated: a pattern containing `?` but
no `*` is treated by the code as a plain substring test, not a glob — so
`a?c` does not ignore `abc` (though the claim's glob rule matches it);
moreover a `*`-pattern is matched only against a *prefix* of the path, not
the full path — so `*.lock` ignores `a.lockx` (which the claim's
full-anchor rule rejects). -/
theorem ignore_rules_cex :
    isIgnored ["a?c".data] "abc".data = false ∧
    specIgnored ["a?c".data] "abc".data = true ∧
    isIgnored ["*.lock".data] "a.lockx".data = true ∧
    specIgnored ["*.lock".data] "a.lockx".data = false := by
  refine ⟨by decide, by decide, by decide, by decide⟩

/-- C8 as amended: only patterns containing `*` are treated as globs
(`*` → any run of non-newline characters, `?` → one non-newline character,
other characters literal), and they are matched against a *prefix* of the
path (start-anchored `re.match`); every other pattern — even one containing
`?` — is a plain case-sensitive substring test; a path is ignored iff at
least one pattern matches under these rules. -/
theorem ignore_semantics (pats : List Str) (path : Str) :
    isIgnored pats path = true ↔
      ∃ pat ∈ pats,
        if pat.contains '*' then ∃ pre, pre <+: path ∧ reFull (compilePat pat) pre = true
        else ∃ l r, path = l ++ pat ++ r := by
  unfold isIgnored
  rw [List.any_eq_true]
  constructor
  · rintro ⟨pat, hmem, hp⟩
    refine ⟨pat, hmem, ?_⟩
    by_cases hc : pat.contains '*'
    · rw [if_pos hc]
      rw [if_pos hc] at hp
      exact (reMatch_iff_front_full _ _).mp hp
    · rw [if_neg hc]
      rw [if_neg hc] at hp
      exact (isSubstr_iff _ _).mp hp
  · rintro ⟨pat, hmem, hp⟩
    refine ⟨pat, hmem, ?_⟩
    by_cases hc : pat.contains '*'
    · rw [if_pos hc]
      rw [if_pos hc] at hp
      exact (reMatch_iff_front_full _ _).mpr hp
    · rw [if_neg hc]
      rw [if_neg hc] at hp
      exact (isSubstr_iff _ _).mpr hp

/-! ### Exact-match occurrence lemmas (towards C1) -/

theorem mem_occPositions {hay sub : Str} {p : Nat} :
    p ∈ occPositions hay sub ↔ p < hay.length + 1 ∧ sub <+: hay.drop p := by
  simp [occPositions, List.mem_filter, List.mem_range, occAt, List.isPrefixOf_iff_prefix]

/-- With exactly one occurrence position, the position list is the singleton
of the decomposition point. -/
theorem occPositions_singleton {pre sub post : Str}
    (huniq : occCount (pre ++ sub ++ post) sub = 1) :
    occPositions (pre ++ sub ++ post) sub = [pre.length] := by
  have hmem : pre.length ∈ occPositions (pre ++ sub ++ post) sub := by
    rw [mem_occPositions]
    refine ⟨by simp; omega, ?_⟩
    rw [List.append_assoc, List.drop_left]
    exact ⟨post, rfl⟩
  obtain ⟨a, ha⟩ := List.length_eq_one.mp huniq
  rw [ha] at hmem ⊢
  simp only [List.mem_singleton] at hmem
  rw [hmem]

theorem firstOcc_of_unique {pre sub post : Str}
    (huniq : occCount (pre ++ sub ++ post) sub = 1) :
    firstOcc (pre ++ sub ++ post) sub = some pre.length := by
  unfold firstOcc
  rw [occPositions_singleton huniq]
  rfl

theorem pyCount_of_unique {pre sub post : Str}
    (huniq : occCount (pre ++ sub ++ post) sub = 1) :
    pyCount (pre ++ sub ++ post) sub = 1 := by
  unfold pyCount
  rw [occPositions_singleton huniq]
  simp [selectNO]

/-- `content.replace(sub, new, 1)` at a unique occurrence rewrites exactly
that occurrence. -/
theorem replaceFirst_of_unique {pre sub post new : Str}
    (huniq : occCount (pre ++ sub ++ post) sub = 1) :
    replaceFirst (pre ++ sub ++ post) sub new = pre ++ new ++ post := by
  unfold replaceFirst
  rw [firstOcc_of_unique huniq]
  have htake : (pre ++ sub ++ post).take pre.length = pre := by
    rw [List.append_assoc, List.take_left]
  have hdrop : (pre ++ sub ++ post).drop (pre.length + sub.length) = post := by
    rw [← List.length_append pre sub, List.drop_left]
  show (pre ++ sub ++ post).take pre.length ++ new ++
      (pre ++ sub ++ post).drop (pre.length + sub.length) = pre ++ new ++ post
  rw [htake, hdrop]

theorem ne_nil_of_stripWS {s : Str} (h : stripWS s ≠ []) : s ≠ [] := by
  intro hn
  subst hn
  exact h rfl

/-- The exact-match branch of the analyzer: a unique exact occurrence
resolves with score 100 at the occurrence's line. -/
theorem analyze_exact_unique (pats : List Str) (dirs : Str → Bool) (fs : FS)
    (b : PatchBlock) (pre post : Str)
    (hfs : fs b.filename = some (pre ++ b.search_block ++ post))
    (hni : isIgnored pats b.filename = false)
    (hrep : stripWS b.replace_block ≠ [])
    (hsrch : stripWS b.search_block ≠ [])
    (huniq : occCount (pre ++ b.search_block ++ post) b.search_block = 1) :
    analyzeBlock pats dirs fs b =
      ({ b with valid_match := some b.search_block,
                line_number := some (countNL pre + 1), match_quality := 100 },
       ⟨b.filename, "success", msgExact, some (countNL pre + 1), some 100, none, none⟩) := by
  have hsub : isSubstr (pre ++ b.search_block ++ post) b.search_block = true :=
    (isSubstr_iff _ _).mpr ⟨pre, post, rfl⟩
  have htake : (pre ++ b.search_block ++ post).take pre.length = pre := by
    rw [List.append_assoc, List.take_left]
  simp only [analyzeBlock, hni, hfs, hrep, hsrch, hsub, Bool.false_eq_true, if_false, if_true,
    pyCount_of_unique huniq, firstOcc_of_unique huniq, Option.getD_some, htake]

/-- `analyze_blocks` falls through to the fuzzy stage when the exact and
flexible-regex stages both fail. -/
theorem analyze_reaches_fuzzy (pats : List Str) (dirs : Str → Bool) (fs : FS)
    (b : PatchBlock) (content : Str)
    (hfs : fs b.filename = some content)
    (hni : isIgnored pats b.filename = false)
    (hrep : stripWS b.replace_block ≠ [])
    (hsrch : stripWS b.search_block ≠ [])
    (hnosub : isSubstr content b.search_block = false)
    (hflex : flexMatch (flexTokens b.search_block) content = []) :
    analyzeBlock pats dirs fs b = fuzzyStage b content := by
  by_cases hts : flexTokens b.search_block = []
  · simp only [analyzeBlock, hni, hfs, hrep, hsrch, hnosub, hts, Bool.false_eq_true, if_false,
      if_true]
  · simp only [analyzeBlock, hni, hfs, hrep, hsrch, hnosub, hts, hflex, Bool.false_eq_true,
      if_false, if_true]

/-- Below the similarity threshold the fuzzy stage resolves nothing and
produces the no-match error, attaching the candidate context window (when a
candidate line exists) or the first 500 characters of the file. -/
theorem fuzzyStage_below_threshold (b : PatchBlock) (content : Str)
    (hfz : (findBestMatch b.search_block content).2.2 < 80) :
    fuzzyStage b content =
      (b, ⟨b.filename, "error", msgNoMatch, none, none,
        some (match (findBestMatch b.search_block content).2.1 with
              | some l => ctxWindow content (l - 1) 20
              | none => content.take 500), some content⟩) := by
  have hnot : ¬((findBestMatch b.search_block content).2.2 ≥ 80) := not_le.mpr hfz
  unfold fuzzyStage
  simp only [hnot, if_false]
  cases hbl : (findBestMatch b.search_block content).2.1 with
  | none => simp [hbl]
  | some l => simp [hbl]

/-- C1 as amended: for an enabled block whose path is not ignored, whose
search and replace blocks are non-blank, and whose search occurs in the file
content exactly once, `analyze` resolves the exact match (score 100) and
`apply` rewrites the file to `content.replace(search, replace, 1)`, i.e. to
`pre ++ replace ++ post`; re-analysing the same block against the rewritten
content produces the no-match error *provided* the search text no longer
resolves there (not as an exact substring, not via the flexible regex, and
with best fuzzy similarity below 80) — without that proviso re-analysis can
succeed again, e.g. when the replace text reintroduces the search text. -/
theorem exact_unique_apply_replaces (pats : List Str) (dirs : Str → Bool) (fs : FS)
    (hist : List TransRecord) (ts : Nat) (b : PatchBlock) (pre post : Str)
    (hfs : fs b.filename = some (pre ++ b.search_block ++ post))
    (hni : isIgnored pats b.filename = false)
    (hrep : stripWS b.replace_block ≠ [])
    (hsrch : stripWS b.search_block ≠ [])
    (hen : b.enabled = true)
    (huniq : occCount (pre ++ b.search_block ++ post) b.search_block = 1) :
    (analyzeBlock pats dirs fs b).2.status = "success" ∧
    (analyzeBlock pats dirs fs b).1.valid_match = some b.search_block ∧
    pre ++ b.replace_block ++ post =
      replaceFirst (pre ++ b.search_block ++ post) b.search_block b.replace_block ∧
    ∃ fs' hist',
      applyPatches fs hist [(analyzeBlock pats dirs fs b).1] ts = .ok (fs', hist', [b.filename]) ∧
      fs' b.filename = some (pre ++ b.replace_block ++ post) ∧
      (isSubstr (pre ++ b.replace_block ++ post) b.search_block = false →
       flexMatch (flexTokens b.search_block) (pre ++ b.replace_block ++ post) = [] →
       (findBestMatch b.search_block (pre ++ b.replace_block ++ post)).2.2 < 80 →
       (analyzeBlock pats dirs fs' (analyzeBlock pats dirs fs b).1).2.status = "error" ∧
       (analyzeBlock pats dirs fs' (analyzeBlock pats dirs fs b).1).2.message = msgNoMatch) := by
  have hana := analyze_exact_unique pats dirs fs b pre post hfs hni hrep hsrch huniq
  have hsne : b.search_block ≠ [] := ne_nil_of_stripWS hsrch
  refine ⟨by rw [hana], by rw [hana], (replaceFirst_of_unique huniq).symm, ?_⟩
  set b' := (analyzeBlock pats dirs fs b).1 with hb'
  have hb'eq : b' =
      { b with
        valid_match := some b.search_block
        line_number := some (countNL pre + 1)
        match_quality := 100 } := by
    rw [hb', hana]
  have hb'fn : b'.filename = b.filename := by rw [hb'eq]
  have hb'sr : b'.search_block = b.search_block := by rw [hb'eq]
  have hb'rp : b'.replace_block = b.replace_block := by rw [hb'eq]
  have hb'vm : b'.valid_match = some b.search_block := by rw [hb'eq]
  have hb'en : b'.enabled = true := by rw [hb'eq]; exact hen
  have htruthy : optTruthy b'.valid_match = true := by
    rw [hb'vm]
    simp [optTruthy, hsne]
  have hpf : preflightBad fs b' = false := by
    simp [preflightBad, htruthy]
  have hfil : [b'].filter (fun x => x.enabled) = [b'] := by simp [hb'en]
  have hfnd : [b'].find? (preflightBad fs) = none := by simp [List.find?, hpf]
  have happ : applyBlock ts ⟨fs, [], []⟩ b' =
      ⟨fsWrite (fsWrite fs (backupPath b.filename ts) (pre ++ b.search_block ++ post))
         b.filename (pre ++ b.replace_block ++ post),
       [⟨b.filename, "modify", some (backupPath b.filename ts),
         some (calculateHash
           (fsWrite (fsWrite fs (backupPath b.filename ts) (pre ++ b.search_block ++ post))
             b.filename (pre ++ b.replace_block ++ post)) b.filename),
         none, b'.line_number⟩],
       [b.filename]⟩ := by
    have hst : optTruthy (some b.search_block) = true := by simp [optTruthy, hsne]
    simp only [applyBlock, hb'fn, hb'rp, hb'vm, hfs, hrep, htruthy, hst, Bool.false_eq_true,
      if_false, if_true, Option.getD_some, hb'sr, replaceFirst_of_unique huniq,
      List.nil_append]
  set bk := backupPath b.filename ts with hbk
  set fs2 := fsWrite (fsWrite fs bk (pre ++ b.search_block ++ post)) b.filename
      (pre ++ b.replace_block ++ post) with hfs2
  set rec1 := (⟨ts, [⟨b.filename, "modify", some bk, some (calculateHash fs2 b.filename),
      none, b'.line_number⟩]⟩ : TransRecord) with hrec1
  refine ⟨fs2, if (hist ++ [rec1]).length > MAX_HISTORY then
      (hist ++ [rec1]).drop ((hist ++ [rec1]).length - MAX_HISTORY) else hist ++ [rec1],
    ?_, ?_, ?_⟩
  · unfold applyPatches
    dsimp only
    rw [hfil, hfnd, List.foldl_cons, List.foldl_nil, happ]
  · rw [hfs2]
    simp [fsWrite]
  · intro hnosub hflex hfz
    have hfs' : fs2 b'.filename = some (pre ++ b.replace_block ++ post) := by
      rw [hb'fn, hfs2]
      simp [fsWrite]
    have hre := analyze_reaches_fuzzy pats dirs fs2 b' (pre ++ b.replace_block ++ post)
      hfs' (by rw [hb'fn]; exact hni) (by rw [hb'rp]; exact hrep) (by rw [hb'sr]; exact hsrch)
      (by rw [hb'sr]; exact hnosub) (by rw [hb'sr]; exact hflex)
    have hfz' := fuzzyStage_below_threshold b' (pre ++ b.replace_block ++ post)
      (by rw [hb'sr]; exact hfz)
    rw [hre, hfz']
    exact ⟨rfl, rfl⟩

/-- C1, counterexample to the claim as stated: with content `"abc"`, search
`"b"` (exactly one exact occurrence) and replace `"xbx"`, apply rewrites the
file to `"axbxc"` — but re-analysing the same block against the rewritten
content yields `success` (the replace text reintroduced the search text),
not the claimed no-match error. -/
theorem exact_unique_reanalysis_cex :
    occCount "abc".data "b".data = 1 ∧
    (analyzeBlock [] (fun _ => true) (fun q => if q = "f".data then some "abc".data else none)
      ⟨"f".data, "b".data, "xbx".data, none, none, 0, true⟩).2.status = "success" ∧
    ∃ fs' hist',
      applyPatches (fun q => if q = "f".data then some "abc".data else none) []
        [(analyzeBlock [] (fun _ => true)
            (fun q => if q = "f".data then some "abc".data else none)
            ⟨"f".data, "b".data, "xbx".data, none, none, 0, true⟩).1] 3 =
        .ok (fs', hist', ["f".data]) ∧
      fs' "f".data = some "axbxc".data ∧
      (analyzeBlock [] (fun _ => true) fs'
        (analyzeBlock [] (fun _ => true)
          (fun q => if q = "f".data then some "abc".data else none)
          ⟨"f".data, "b".data, "xbx".data, none, none, 0, true⟩).1).2.status = "success" :=
  ⟨by decide, by decide, _, _, rfl, by decide, by decide⟩

/-- Witness for the amended C1: content `"ab"`, search `"b"`, replace `"z"`;
after apply the file holds `"az"`, and since `"b"` no longer occurs in any
form, re-analysis gives the no-match error. -/
theorem exact_unique_apply_replaces_witness :
    (analyzeBlock [] (fun _ => true) (fun q => if q = "f".data then some "ab".data else none)
      ⟨"f".data, "b".data, "z".data, none, none, 0, true⟩).2.status = "success" ∧
    (analyzeBlock [] (fun _ => true) (fun q => if q = "f".data then some "ab".data else none)
      ⟨"f".data, "b".data, "z".data, none, none, 0, true⟩).1.valid_match = some "b".data ∧
    "az".data = replaceFirst "ab".data "b".data "z".data ∧
    ∃ fs' hist',
      applyPatches (fun q => if q = "f".data then some "ab".data else none) []
        [(analyzeBlock [] (fun _ => true)
            (fun q => if q = "f".data then some "ab".data else none)
            ⟨"f".data, "b".data, "z".data, none, none, 0, true⟩).1] 1 =
        .ok (fs', hist', ["f".data]) ∧
      fs' "f".data = some "az".data ∧
      (isSubstr "az".data "b".data = false →
       flexMatch (flexTokens "b".data) "az".data = [] →
       (findBestMatch "b".data "az".data).2.2 < 80 →
       (analyzeBlock [] (fun _ => true) fs'
         (analyzeBlock [] (fun _ => true)
           (fun q => if q = "f".data then some "ab".data else none)
           ⟨"f".data, "b".data, "z".data, none, none, 0, true⟩).1).2.status = "error" ∧
       (analyzeBlock [] (fun _ => true) fs'
         (analyzeBlock [] (fun _ => true)
           (fun q => if q = "f".data then some "ab".data else none)
           ⟨"f".data, "b".data, "z".data, none, none, 0, true⟩).1).2.message = msgNoMatch) :=
  exact_unique_apply_replaces [] (fun _ => true)
    (fun q => if q = "f".data then some "ab".data else none) [] 1
    ⟨"f".data, "b".data, "z".data, none, none, 0, true⟩ "a".data []
    (by decide) rfl (by decide) (by decide) rfl (by decide)

/-! ### The fuzzy loop (C7) -/

/-- Invariant of the `_find_best_match` loop: either no window beats the
incoming best score and the state is returned unchanged, or the returned
state is that of the *first* window (in iteration order, with indices
strictly increasing) achieving the maximal score among the windows beating
the incoming score. -/
theorem fbmAux_spec (search : Str) (lines : List Str) (slen : Nat) :
    ∀ (is : List Nat) (bm : Option Str) (bl : Option Nat) (bs : Rat),
      is.Pairwise (· < ·) →
      (fbmAux search lines slen is (bm, bl, bs) = (bm, bl, bs) ∧
        ∀ i ∈ is, winScore search lines slen i ≤ bs) ∨
      (∃ i ∈ is,
        fbmAux search lines slen is (bm, bl, bs) =
          (some (winText lines slen i), some (i + 1), winScore search lines slen i) ∧
        bs < winScore search lines slen i ∧
        (∀ j ∈ is, winScore search lines slen j ≤ winScore search lines slen i) ∧
        (∀ j ∈ is, j < i → winScore search lines slen j < winScore search lines slen i)) := by
  intro is
  induction is with
  | nil => intro bm bl bs _; exact Or.inl ⟨rfl, by simp⟩
  | cons i rest ih =>
    intro bm bl bs hpw
    obtain ⟨hi, hrest⟩ := List.pairwise_cons.mp hpw
    by_cases hgt : winScore search lines slen i > bs
    · have hstep : fbmAux search lines slen (i :: rest) (bm, bl, bs) =
          fbmAux search lines slen rest
            (some (winText lines slen i), some (i + 1), winScore search lines slen i) := by
        simp only [fbmAux, hgt, if_true]
      rcases ih (some (winText lines slen i)) (some (i + 1)) (winScore search lines slen i)
          hrest with ⟨heq, hball⟩ | ⟨i', hi'mem, heq, hlt, hub, hstrict⟩
      · refine Or.inr ⟨i, List.mem_cons_self i rest, by rw [hstep, heq], hgt, ?_, ?_⟩
        · intro j hj
          rcases List.mem_cons.mp hj with rfl | hj'
          · exact le_refl _
          · exact hball j hj'
        · intro j hj hji
          rcases List.mem_cons.mp hj with rfl | hj'
          · omega
          · exact absurd hji (by have := hi j hj'; omega)
      · refine Or.inr ⟨i', List.mem_cons_of_mem i hi'mem, by rw [hstep, heq], lt_trans hgt hlt,
          ?_, ?_⟩
        · intro j hj
          rcases List.mem_cons.mp hj with rfl | hj'
          · exact le_of_lt hlt
          · exact hub j hj'
        · intro j hj hji
          rcases List.mem_cons.mp hj with rfl | hj'
          · exact hlt
          · exact hstrict j hj' hji
    · push_neg at hgt
      have hstep : fbmAux search lines slen (i :: rest) (bm, bl, bs) =
          fbmAux search lines slen rest (bm, bl, bs) := by
        simp only [fbmAux, not_lt.mpr hgt, if_false]
      rcases ih bm bl bs hrest with ⟨heq, hball⟩ | ⟨i', hi'mem, heq, hlt, hub, hstrict⟩
      · refine Or.inl ⟨by rw [hstep, heq], ?_⟩
        intro j hj
        rcases List.mem_cons.mp hj with rfl | hj'
        · exact hgt
        · exact hball j hj'
      · refine Or.inr ⟨i', List.mem_cons_of_mem i hi'mem, by rw [hstep, heq],
          hlt, ?_, ?_⟩
        · intro j hj
          rcases List.mem_cons.mp hj with rfl | hj'
          · exact le_of_lt (lt_of_le_of_lt hgt hlt)
          · exact hub j hj'
        · intro j hj hji
          rcases List.mem_cons.mp hj with rfl | hj'
          · exact lt_of_le_of_lt hgt hlt
          · exact hstrict j hj' hji

/-- C7: (a) a block whose best sliding-window similarity is strictly below
80 is never resolved — the analyzer returns the block unchanged (so
`valid_match`, `line_number`, `match_quality` stay as they were, unset for a
freshly parsed block) and classifies it `error` with no similarity score in
the verdict; (b) `_find_best_match` reports the best score as an upper bound
over all windows, and when several windows tie on that best score the
earliest window (smallest starting line) is the one reported. -/
theorem fuzzy_gating_and_earliest_tie :
    (∀ (pats : List Str) (dirs : Str → Bool) (fs : FS) (b : PatchBlock) (content : Str),
      fs b.filename = some content →
      isIgnored pats b.filename = false →
      stripWS b.replace_block ≠ [] →
      stripWS b.search_block ≠ [] →
      isSubstr content b.search_block = false →
      flexMatch (flexTokens b.search_block) content = [] →
      (findBestMatch b.search_block content).2.2 < 80 →
      (analyzeBlock pats dirs fs b).1 = b ∧
      (analyzeBlock pats dirs fs b).2.status = "error" ∧
      (analyzeBlock pats dirs fs b).2.similarity_score = none) ∧
    (∀ (search content : Str),
      (∀ i, i < (splitNL content).length + 1 - (splitNL search).length →
        winScore search (splitNL content) (splitNL search).length i ≤
          (findBestMatch search content).2.2) ∧
      (0 < (findBestMatch search content).2.2 →
        ∃ i0, i0 < (splitNL content).length + 1 - (splitNL search).length ∧
          (findBestMatch search content).2.1 = some (i0 + 1) ∧
          (findBestMatch search content).1 =
            some (winText (splitNL content) (splitNL search).length i0) ∧
          winScore search (splitNL content) (splitNL search).length i0 =
            (findBestMatch search content).2.2 ∧
          ∀ j < i0, winScore search (splitNL content) (splitNL search).length j <
            (findBestMatch search content).2.2)) := by
  constructor
  · intro pats dirs fs b content hfs hni hrep hsrch hnosub hflex hfz
    rw [analyze_reaches_fuzzy pats dirs fs b content hfs hni hrep hsrch hnosub hflex,
      fuzzyStage_below_threshold b content hfz]
    exact ⟨rfl, rfl, rfl⟩
  · intro search content
    have hspec := fbmAux_spec search (splitNL content) (splitNL search).length
      (List.range ((splitNL content).length + 1 - (splitNL search).length)) none none 0
      (List.pairwise_lt_range _)
    have hfbm : findBestMatch search content =
        fbmAux search (splitNL content) (splitNL search).length
          (List.range ((splitNL content).length + 1 - (splitNL search).length))
          (none, none, 0) := rfl
    rcases hspec with ⟨heq, hball⟩ | ⟨i', hi'mem, heq, hlt, hub, hstrict⟩
    · constructor
      · intro i hilt
        rw [hfbm, heq]
        exact hball i (List.mem_range.mpr hilt)
      · intro hpos
        rw [hfbm, heq] at hpos
        exact absurd hpos (by norm_num)
    · constructor
      · intro i hilt
        rw [hfbm, heq]
        exact hub i (List.mem_range.mpr hilt)
      · intro _
        refine ⟨i', List.mem_range.mp hi'mem, ?_, ?_, ?_, ?_⟩
        · rw [hfbm, heq]
        · rw [hfbm, heq]
        · rw [hfbm, heq]
        · intro j hji
          rw [hfbm, heq]
          exact hstrict j (List.mem_range.mpr (lt_trans hji (List.mem_range.mp hi'mem))) hji

/-- Witness for C7: (a) search `"ab cd"` against `"xx\nyy"` falls through
every stage, scores 0 < 80 and is classified `error` with the block
unchanged; (b) against `"axx\nazz"`, search `"a q"` scores 100/3 on both
windows — a tie — and the first window (line 1) is reported. -/
theorem fuzzy_gating_and_earliest_tie_witness :
    ((analyzeBlock [] (fun _ => true)
        (fun q => if q = "f".data then some "xx\nyy".data else none)
        ⟨"f".data, "ab cd".data, "z".data, none, none, 0, true⟩).1 =
      ⟨"f".data, "ab cd".data, "z".data, none, none, 0, true⟩ ∧
     (analyzeBlock [] (fun _ => true)
        (fun q => if q = "f".data then some "xx\nyy".data else none)
        ⟨"f".data, "ab cd".data, "z".data, none, none, 0, true⟩).2.status = "error" ∧
     (analyzeBlock [] (fun _ => true)
        (fun q => if q = "f".data then some "xx\nyy".data else none)
        ⟨"f".data, "ab cd".data, "z".data, none, none, 0, true⟩).2.similarity_score = none) ∧
    (∃ i0, i0 < (splitNL "axx\nazz".data).length + 1 - (splitNL "a q".data).length ∧
      (findBestMatch "a q".data "axx\nazz".data).2.1 = some (i0 + 1) ∧
      (findBestMatch "a q".data "axx\nazz".data).1 =
        some (winText (splitNL "axx\nazz".data) (splitNL "a q".data).length i0) ∧
      winScore "a q".data (splitNL "axx\nazz".data) (splitNL "a q".data).length i0 =
        (findBestMatch "a q".data "axx\nazz".data).2.2 ∧
      ∀ j < i0, winScore "a q".data (splitNL "axx\nazz".data) (splitNL "a q".data).length j <
        (findBestMatch "a q".data "axx\nazz".data).2.2) :=
  ⟨fuzzy_gating_and_earliest_tie.1 [] (fun _ => true)
      (fun q => if q = "f".data then some "xx\nyy".data else none)
      ⟨"f".data, "ab cd".data, "z".data, none, none, 0, true⟩ "xx\nyy".data
      rfl rfl (by decide) (by decide) (by decide) (by decide) (by decide),
   (fuzzy_gating_and_earliest_tie.2 "a q".data "axx\nazz".data).2 (by decide)⟩

/-! ### Context windows (C9) -/

/-- The fuzzy stage at or above the threshold: a low-confidence warning that
resolves the window and attaches the (half-width 7) context window. -/
theorem fuzzyStage_above_threshold (b : PatchBlock) (content : Str)
    (hbs : (findBestMatch b.search_block content).2.2 ≥ 80) :
    fuzzyStage b content =
      ({ b with
         valid_match := (findBestMatch b.search_block content).1
         line_number := (findBestMatch b.search_block content).2.1
         match_quality := (findBestMatch b.search_block content).2.2 },
       ⟨b.filename, "warning", msgFuzzy, (findBestMatch b.search_block content).2.1,
        some (findBestMatch b.search_block content).2.2,
        some (ctxWindow content (((findBestMatch b.search_block content).2.1).getD 1 - 1) 15),
        none⟩) := by
  unfold fuzzyStage
  simp only [hbs, if_true]

/-- C9, counterexample to the claim as stated: the unique flexible-regex
match produces a warning verdict *with* a candidate line but *without* any
context window attached. -/
theorem ctx_window_cex :
    (analyzeBlock [] (fun _ => true) (fun q => if q = "f".data then some "a b".data else none)
      ⟨"f".data, "a  b".data, "c".data, none, none, 0, true⟩).2.status = "warning" ∧
    (analyzeBlock [] (fun _ => true) (fun q => if q = "f".data then some "a b".data else none)
      ⟨"f".data, "a  b".data, "c".data, none, none, 0, true⟩).2.line_number = some 1 ∧
    (analyzeBlock [] (fun _ => true) (fun q => if q = "f".data then some "a b".data else none)
      ⟨"f".data, "a  b".data, "c".data, none, none, 0, true⟩).2.error_context = none :=
  ⟨by decide, by decide, by decide⟩

/-- Inside its rendered range, the context window marks the candidate line
with `>>>`. -/
theorem ctxWindow_marks_candidate (content : Str) (L w : Nat)
    (hL : L < (splitNL content).length) (hw : 1 ≤ w / 2) :
    ∃ before after, ctxWindow content L w =
      joinNL (before ++ (">>>".data ++ [' '] ++ pad4 (natStr (L + 1)) ++ " | ".data ++
        ((splitNL content).getD L [])) :: after) := by
  have hmem : L ∈ List.range' (L - w / 2)
      (min (splitNL content).length (L + w / 2) - (L - w / 2)) := by
    rw [List.mem_range'_1]
    omega
  obtain ⟨s, t, hst⟩ := List.append_of_mem hmem
  refine ⟨s.map (fun i => (if i = L then ">>>".data else "   ".data) ++ [' '] ++
      pad4 (natStr (i + 1)) ++ " | ".data ++ ((splitNL content).getD i [])),
    t.map (fun i => (if i = L then ">>>".data else "   ".data) ++ [' '] ++
      pad4 (natStr (i + 1)) ++ " | ".data ++ ((splitNL content).getD i [])), ?_⟩
  unfold ctxWindow
  dsimp only
  rw [hst, List.map_append, List.map_cons, if_pos rfl]

/-- C9 as amended: the ambiguous-exact and ambiguous-regex errors and the
no-match error with a candidate attach a context window centred on the
candidate line — half-width `15 / 2 = 7` for the ambiguous cases and the
fuzzy warning, half-width `20 / 2 = 10` for the no-match error — marked
`>>>` at the candidate; a total miss (no candidate line at all) attaches the
first 500 characters of the file; the unique-regex warning attaches no
context at all. -/
theorem context_window_policy :
    (∀ (pats : List Str) (dirs : Str → Bool) (fs : FS) (b : PatchBlock) (content : Str),
      fs b.filename = some content →
      isIgnored pats b.filename = false →
      stripWS b.replace_block ≠ [] →
      stripWS b.search_block ≠ [] →
      isSubstr content b.search_block = true →
      pyCount content b.search_block ≠ 1 →
      (analyzeBlock pats dirs fs b).2.status = "error" ∧
      (analyzeBlock pats dirs fs b).2.error_context =
        some (ctxWindow content
          (countNL (content.take ((firstOcc content b.search_block).getD 0))) 15)) ∧
    (∀ (pats : List Str) (dirs : Str → Bool) (fs : FS) (b : PatchBlock) (content : Str)
      (s1 e1 s2 e2 : Nat) (rest : List (Nat × Nat)),
      fs b.filename = some content →
      isIgnored pats b.filename = false →
      stripWS b.replace_block ≠ [] →
      stripWS b.search_block ≠ [] →
      isSubstr content b.search_block = false →
      flexTokens b.search_block ≠ [] →
      flexMatch (flexTokens b.search_block) content = (s1, e1) :: (s2, e2) :: rest →
      (analyzeBlock pats dirs fs b).2.status = "error" ∧
      (analyzeBlock pats dirs fs b).2.error_context =
        some (ctxWindow content (countNL (content.take s1)) 15)) ∧
    (∀ (pats : List Str) (dirs : Str → Bool) (fs : FS) (b : PatchBlock) (content : Str)
      (s1 e1 : Nat),
      fs b.filename = some content →
      isIgnored pats b.filename = false →
      stripWS b.replace_block ≠ [] →
      stripWS b.search_block ≠ [] →
      isSubstr content b.search_block = false →
      flexTokens b.search_block ≠ [] →
      flexMatch (flexTokens b.search_block) content = [(s1, e1)] →
      (analyzeBlock pats dirs fs b).2.status = "warning" ∧
      (analyzeBlock pats dirs fs b).2.line_number = some (countNL (content.take s1) + 1) ∧
      (analyzeBlock pats dirs fs b).2.error_context = none) ∧
    (∀ (pats : List Str) (dirs : Str → Bool) (fs : FS) (b : PatchBlock) (content : Str),
      fs b.filename = some content →
      isIgnored pats b.filename = false →
      stripWS b.replace_block ≠ [] →
      stripWS b.search_block ≠ [] →
      isSubstr content b.search_block = false →
      flexMatch (flexTokens b.search_block) content = [] →
      (findBestMatch b.search_block content).2.2 ≥ 80 →
      (analyzeBlock pats dirs fs b).2.status = "warning" ∧
      (analyzeBlock pats dirs fs b).2.error_context =
        some (ctxWindow content
          (((findBestMatch b.search_block content).2.1).getD 1 - 1) 15)) ∧
    (∀ (pats : List Str) (dirs : Str → Bool) (fs : FS) (b : PatchBlock) (content : Str) (l : Nat),
      fs b.filename = some content →
      isIgnored pats b.filename = false →
      stripWS b.replace_block ≠ [] →
      stripWS b.search_block ≠ [] →
      isSubstr content b.search_block = false →
      flexMatch (flexTokens b.search_block) content = [] →
      (findBestMatch b.search_block content).2.2 < 80 →
      (findBestMatch b.search_block content).2.1 = some l →
      (analyzeBlock pats dirs fs b).2.status = "error" ∧
      (analyzeBlock pats dirs fs b).2.error_context =
        some (ctxWindow content (l - 1) 20)) ∧
    (∀ (pats : List Str) (dirs : Str → Bool) (fs : FS) (b : PatchBlock) (content : Str),
      fs b.filename = some content →
      isIgnored pats b.filename = false →
      stripWS b.replace_block ≠ [] →
      stripWS b.search_block ≠ [] →
      isSubstr content b.search_block = false →
      flexMatch (flexTokens b.search_block) content = [] →
      (findBestMatch b.search_block content).2.2 < 80 →
      (findBestMatch b.search_block content).2.1 = none →
      (analyzeBlock pats dirs fs b).2.status = "error" ∧
      (analyzeBlock pats dirs fs b).2.error_context = some (content.take 500)) := by
  refine ⟨?_, ?_, ?_, ?_, ?_, ?_⟩
  · intro pats dirs fs b content hfs hni hrep hsrch hsub hcnt
    simp only [analyzeBlock, hfs, hni, hrep, hsrch, hsub, hcnt, Bool.false_eq_true, if_false,
      if_true]
    exact ⟨by trivial, by trivial⟩
  · intro pats dirs fs b content s1 e1 s2 e2 rest hfs hni hrep hsrch hnosub hts hms
    simp only [analyzeBlock, hfs, hni, hrep, hsrch, hnosub, hts, hms, Bool.false_eq_true,
      if_false, if_true]
    exact ⟨by trivial, by trivial⟩
  · intro pats dirs fs b content s1 e1 hfs hni hrep hsrch hnosub hts hms
    simp only [analyzeBlock, hfs, hni, hrep, hsrch, hnosub, hts, hms, Bool.false_eq_true,
      if_false, if_true]
    exact ⟨by trivial, by trivial, by trivial⟩
  · intro pats dirs fs b content hfs hni hrep hsrch hnosub hflex hbs
    rw [analyze_reaches_fuzzy pats dirs fs b content hfs hni hrep hsrch hnosub hflex,
      fuzzyStage_above_threshold b content hbs]
    exact ⟨rfl, rfl⟩
  · intro pats dirs fs b content l hfs hni hrep hsrch hnosub hflex hfz hbl
    rw [analyze_reaches_fuzzy pats dirs fs b content hfs hni hrep hsrch hnosub hflex,
      fuzzyStage_below_threshold b content hfz]
    refine ⟨rfl, ?_⟩
    simp only [hbl]
  · intro pats dirs fs b content hfs hni hrep hsrch hnosub hflex hfz hbl
    rw [analyze_reaches_fuzzy pats dirs fs b content hfs hni hrep hsrch hnosub hflex,
      fuzzyStage_below_threshold b content hfz]
    refine ⟨rfl, ?_⟩
    simp only [hbl]

/-- Witness for the amended C9, one concrete instance per branch:
ambiguous exact (`x=1` twice), ambiguous regex (`a  b` against `a b\na b`),
unique regex (`a  b` against `a b`), fuzzy warning (`abcd  xfgh` against
`abcd efgh`), no-match with candidate (`a q` against `axx`), and total miss
(`ab cd` against `xx\nyy`). -/
theorem context_window_policy_witness :
    ((analyzeBlock [] (fun _ => true)
        (fun q => if q = "f".data then some "x=1\nx=1\n".data else none)
        ⟨"f".data, "x=1".data, "y".data, none, none, 0, true⟩).2.status = "error" ∧
     (analyzeBlock [] (fun _ => true)
        (fun q => if q = "f".data then some "x=1\nx=1\n".data else none)
        ⟨"f".data, "x=1".data, "y".data, none, none, 0, true⟩).2.error_context =
      some (ctxWindow "x=1\nx=1\n".data
        (countNL ("x=1\nx=1\n".data.take ((firstOcc "x=1\nx=1\n".data "x=1".data).getD 0)))
        15)) ∧
    ((analyzeBlock [] (fun _ => true)
        (fun q => if q = "f".data then some "a b\na b".data else none)
        ⟨"f".data, "a  b".data, "c".data, none, none, 0, true⟩).2.status = "error" ∧
     (analyzeBlock [] (fun _ => true)
        (fun q => if q = "f".data then some "a b\na b".data else none)
        ⟨"f".data, "a  b".data, "c".data, none, none, 0, true⟩).2.error_context =
      some (ctxWindow "a b\na b".data (countNL ("a b\na b".data.take 0)) 15)) ∧
    ((analyzeBlock [] (fun _ => true)
        (fun q => if q = "f".data then some "a b".data else none)
        ⟨"f".data, "a  b".data, "c".data, none, none, 0, true⟩).2.status = "warning" ∧
     (analyzeBlock [] (fun _ => true)
        (fun q => if q = "f".data then some "a b".data else none)
        ⟨"f".data, "a  b".data, "c".data, none, none, 0, true⟩).2.line_number =
      some (countNL ("a b".data.take 0) + 1) ∧
     (analyzeBlock [] (fun _ => true)
        (fun q => if q = "f".data then some "a b".data else none)
        ⟨"f".data, "a  b".data, "c".data, none, none, 0, true⟩).2.error_context = none) ∧
    ((analyzeBlock [] (fun _ => true)
        (fun q => if q = "f".data then some "abcd efgh".data else none)
        ⟨"f".data, "abcd  xfgh".data, "c".data, none, none, 0, true⟩).2.status = "warning" ∧
     (analyzeBlock [] (fun _ => true)
        (fun q => if q = "f".data then some "abcd efgh".data else none)
        ⟨"f".data, "abcd  xfgh".data, "c".data, none, none, 0, true⟩).2.error_context =
      some (ctxWindow "abcd efgh".data
        (((findBestMatch "abcd  xfgh".data "abcd efgh".data).2.1).getD 1 - 1) 15)) ∧
    ((analyzeBlock [] (fun _ => true)
        (fun q => if q = "f".data then some "axx".data else none)
        ⟨"f".data, "a q".data, "c".data, none, none, 0, true⟩).2.status = "error" ∧
     (analyzeBlock [] (fun _ => true)
        (fun q => if q = "f".data then some "axx".data else none)
        ⟨"f".data, "a q".data, "c".data, none, none, 0, true⟩).2.error_context =
      some (ctxWindow "axx".data (1 - 1) 20)) ∧
    ((analyzeBlock [] (fun _ => true)
        (fun q => if q = "f".data then some "xx\nyy".data else none)
        ⟨"f".data, "ab cd".data, "c".data, none, none, 0, true⟩).2.status = "error" ∧
     (analyzeBlock [] (fun _ => true)
        (fun q => if q = "f".data then some "xx\nyy".data else none)
        ⟨"f".data, "ab cd".data, "c".data, none, none, 0, true⟩).2.error_context =
      some ("xx\nyy".data.take 500)) :=
  ⟨context_window_policy.1 [] (fun _ => true) _
      ⟨"f".data, "x=1".data, "y".data, none, none, 0, true⟩ "x=1\nx=1\n".data
      rfl rfl (by decide) (by decide) (by decide) (by decide),
   context_window_policy.2.1 [] (fun _ => true) _
      ⟨"f".data, "a  b".data, "c".data, none, none, 0, true⟩ "a b\na b".data
      0 3 4 7 [] rfl rfl (by decide) (by decide) (by decide) (by decide) (by decide),
   context_window_policy.2.2.1 [] (fun _ => true) _
      ⟨"f".data, "a  b".data, "c".data, none, none, 0, true⟩ "a b".data
      0 3 rfl rfl (by decide) (by decide) (by decide) (by decide) (by decide),
   context_window_policy.2.2.2.1 [] (fun _ => true) _
      ⟨"f".data, "abcd  xfgh".data, "c".data, none, none, 0, true⟩ "abcd efgh".data
      rfl rfl (by decide) (by decide) (by decide) (by decide) (by decide),
   context_window_policy.2.2.2.2.1 [] (fun _ => true) _
      ⟨"f".data, "a q".data, "c".data, none, none, 0, true⟩ "axx".data 1
      rfl rfl (by decide) (by decide) (by decide) (by decide) (by decide) (by decide),
   context_window_policy.2.2.2.2.2 [] (fun _ => true) _
      ⟨"f".data, "ab cd".data, "c".data, none, none, 0, true⟩ "xx\nyy".data
      rfl rfl (by decide) (by decide) (by decide) (by decide) (by decide) (by decide)⟩

/-! ### Whitespace-flexible matching (C6) -/

theorem word_not_ws {c : Char} (h : isWordChar c = true) : isWS c = false := by
  cases hb : isWS c
  · rfl
  · exfalso
    have hd : ((c = ' ' ∨ c = '\t') ∨ c = '\r') ∨ c = '\n' := by
      have := hb
      unfold isWS at this
      simpa [Char.isWhitespace, Bool.or_eq_true, decide_eq_true_eq] using this
    rw [or_assoc, or_assoc] at hd
    rcases hd with rfl | rfl | rfl | rfl <;> exact absurd h (by decide)

theorem tokStr_cons_ws {ts : List Str} {s : Str} {c : Char}
    (hc : isWS c = true) (h : TokStr ts s) : TokStr ts (c :: s) := by
  cases ts with
  | nil =>
    intro x hx
    rcases List.mem_cons.mp hx with rfl | hx'
    · exact hc
    · exact h x hx'
  | cons t ts' =>
    obtain ⟨w, rest, hd, t', hs, hw, hth, hwsf, hrest⟩ := h
    exact ⟨c :: w, rest, hd, t', by rw [hs]; rfl, by
      intro x hx
      rcases List.mem_cons.mp hx with rfl | hx'
      · exact hc
      · exact hw x hx', hth, hwsf, hrest⟩

theorem takeWhile_append_all {p : Char → Bool} {w z : Str} {h : Char}
    (hw : ∀ x ∈ w, p x = true) (hh : p h = false) :
    (w ++ h :: z).takeWhile p = w := by
  induction w with
  | nil => simp [List.takeWhile, hh]
  | cons a w' ih =>
    have ha : p a = true := hw a (List.mem_cons_self a w')
    simp only [List.cons_append, List.takeWhile_cons, ha, if_true]
    rw [ih (fun x hx => hw x (List.mem_cons_of_mem a hx))]

/-- The tokenizer's output decomposes its input: every string is its token
list interleaved with whitespace. -/
theorem tokStr_tokenizeF : ∀ (fuel : Nat) (s : Str), s.length < fuel →
    TokStr (tokenizeF fuel s) s := by
  intro fuel
  induction fuel with
  | zero => intro s h; omega
  | succ a ih =>
    intro s h
    match s with
    | [] => intro c hc; cases hc
    | c :: rest =>
      by_cases hwc : isWordChar c
      · have hlen : (rest.dropWhile isWordChar).length < a := by
          have h1 := (List.dropWhile_sublist (l := rest) isWordChar).length_le
          simp only [List.length_cons] at h
          omega
        have hrec := ih (rest.dropWhile isWordChar) hlen
        simp only [tokenizeF, hwc, if_true]
        refine ⟨[], rest.dropWhile isWordChar, c, rest.takeWhile isWordChar, ?_, ?_, rfl,
          word_not_ws hwc, hrec⟩
        · simp [List.takeWhile_append_dropWhile]
        · intro x hx; cases hx
      · by_cases hws : isWS c
        · have hlen : rest.length < a := by
            simp only [List.length_cons] at h; omega
          have hrec := ih rest hlen
          simp only [tokenizeF, hwc, hws, if_false, if_true]
          exact tokStr_cons_ws hws hrec
        · have hlen : rest.length < a := by
            simp only [List.length_cons] at h; omega
          have hrec := ih rest hlen
          simp only [tokenizeF, hwc, hws, if_false]
          exact ⟨[], rest, c, [], rfl, (by intro x hx; cases hx), rfl,
            (by simpa using hws), hrec⟩

/-- `TokStr` for the wrapper `tokenize`. -/
theorem tokStr_tokenize (s : Str) : TokStr (tokenize s) s :=
  tokStr_tokenizeF (s.length + 1) s (by omega)

/-- The deterministic matcher accepts a token chain laid out in the string,
whatever follows it. -/
theorem matchTokens_succeeds : ∀ (ts : List Str) (t : Str) (rest post : Str),
    TokStr ts rest → t ≠ [] →
    ∃ n, matchTokens (t :: ts) (t ++ (rest ++ post)) = some n := by
  intro ts
  induction ts with
  | nil =>
    intro t rest post _ ht
    refine ⟨t.length, ?_⟩
    simp only [matchTokens, List.isPrefixOf_iff_prefix]
    rw [if_pos ⟨rest ++ post, rfl⟩]
  | cons t2 ts2 ih =>
    intro t rest post hts ht
    obtain ⟨w, rest2, h2, t2', hrest, hw, ht2, hh2, hts2⟩ := hts
    obtain ⟨n', hn'⟩ := ih t2 rest2 post hts2 (by rw [ht2]; exact List.cons_ne_nil _ _)
    have hpre : t <+: t ++ (rest ++ post) := ⟨rest ++ post, rfl⟩
    have hdrop : (t ++ (rest ++ post)).drop t.length = rest ++ post := List.drop_left _ _
    have hrp : rest ++ post = w ++ (t2 ++ (rest2 ++ post)) := by
      rw [hrest]
      simp [List.append_assoc]
    have htw : (rest ++ post).takeWhile isWS = w := by
      rw [hrp, ht2]
      exact takeWhile_append_all hw (by rw [Bool.eq_false_iff]; simp [hh2])
    have hdw : (rest ++ post).drop w.length = t2 ++ (rest2 ++ post) := by
      rw [hrp]
      exact List.drop_left _ _
    refine ⟨t.length + w.length + n', ?_⟩
    simp only [matchTokens, List.isPrefixOf_iff_prefix]
    rw [if_pos hpre, hdrop, htw, hdw, hn']

/-- A successful token match consumes at most the whole string. -/
theorem matchTokens_le : ∀ (ts : List Str) (s : Str) (n : Nat),
    matchTokens ts s = some n → n ≤ s.length := by
  intro ts
  induction ts with
  | nil => intro s n h; simp only [matchTokens, Option.some.injEq] at h; omega
  | cons t ts' ih =>
    intro s n h
    match ts' with
    | [] =>
      simp only [matchTokens] at h
      by_cases hp : t.isPrefixOf s
      · rw [if_pos hp] at h
        cases h
        exact (List.isPrefixOf_iff_prefix.mp hp).length_le
      · rw [if_neg hp] at h; cases h
    | t2 :: ts2 =>
      simp only [matchTokens] at h
      by_cases hp : t.isPrefixOf s
      · rw [if_pos hp] at h
        have hplen : t.length ≤ s.length := (List.isPrefixOf_iff_prefix.mp hp).length_le
        set s1 := s.drop t.length with hs1
        set w := (s1.takeWhile isWS).length with hww
        cases hrec : matchTokens (t2 :: ts2) (s1.drop w) with
        | none => rw [hrec] at h; cases h
        | some n' =>
          rw [hrec] at h
          cases h
          have h1 := ih (s1.drop w) n' hrec
          have h2 : (s1.drop w).length = s1.length - w := by simp
          have h3 : s1.length = s.length - t.length := by rw [hs1]; simp
          have h4 : w ≤ s1.length := by
            rw [hww]
            exact (List.takeWhile_sublist (l := s1) isWS).length_le
          omega
      · rw [if_neg hp] at h; cases h

/-- Members of the selected non-overlapping list come from the candidates. -/
theorem mem_of_mem_selectNO : ∀ (l : List (Nat × Nat)) (lo : Nat) (x : Nat × Nat),
    x ∈ selectNO l lo → x ∈ l := by
  intro l
  induction l with
  | nil => intro lo x h; cases h
  | cons p rest ih =>
    intro lo x h
    match p with
    | (s, e) =>
      simp only [selectNO] at h
      by_cases hlo : lo ≤ s
      · rw [if_pos hlo] at h
        rcases List.mem_cons.mp h with rfl | h'
        · exact List.mem_cons_self _ _
        · exact List.mem_cons_of_mem _ (ih e x h')
      · rw [if_neg hlo] at h
        exact List.mem_cons_of_mem _ (ih lo x h)

theorem selectNO_ne_nil {l : List (Nat × Nat)} (h : l ≠ []) : selectNO l 0 ≠ [] := by
  match l with
  | [] => exact absurd rfl h
  | (s, e) :: rest =>
    simp only [selectNO, Nat.zero_le, if_pos]
    exact List.cons_ne_nil _ _

/-- Characterisation of flexible-pattern match intervals. -/
theorem mem_flexAll {ts : List Str} {cs : Str} {s e : Nat}
    (h : (s, e) ∈ flexAll ts cs) :
    s ≤ e ∧ e ≤ cs.length ∧ matchTokens ts (cs.drop s) = some (e - s) := by
  unfold flexAll at h
  obtain ⟨p, hp, hmap⟩ := List.mem_filterMap.mp h
  obtain ⟨n, hn, heq⟩ := Option.map_eq_some'.mp hmap
  have hs : s = p := (congrArg Prod.fst heq).symm
  have he : e = p + n := (congrArg Prod.snd heq).symm
  subst hs
  subst he
  have hle := matchTokens_le ts (cs.drop s) n hn
  have hdl : (cs.drop s).length = cs.length - s := by simp
  have hsr : s < cs.length + 1 := List.mem_range.mp hp
  refine ⟨by omega, by omega, ?_⟩
  rw [hn]
  congr 1
  omega

/-- Existence: when the content contains a region with the pattern's token
list, the flexible pattern matches somewhere in the content. -/
theorem flexMatch_ne_nil_of_region (ts : List Str) (pre region post : Str)
    (htok : tokenize region = ts) (hne : ts ≠ []) :
    flexMatch ts (pre ++ region ++ post) ≠ [] := by
  have htokstr := tokStr_tokenize region
  rw [htok] at htokstr
  match ts, hne with
  | t :: ts', _ =>
    obtain ⟨w, rest, hd, t', hreg, hw, hth, hh, hts'⟩ := htokstr
    have hdrop : (pre ++ region ++ post).drop (pre ++ w).length = t ++ (rest ++ post) := by
      have : pre ++ region ++ post = (pre ++ w) ++ (t ++ (rest ++ post)) := by
        rw [hreg]
        simp [List.append_assoc]
      rw [this]
      exact List.drop_left _ _
    obtain ⟨n, hn⟩ := matchTokens_succeeds ts' t rest post hts'
      (by rw [hth]; exact List.cons_ne_nil _ _)
    have hplen : (pre ++ w).length ≤ (pre ++ region ++ post).length := by
      have : pre ++ region ++ post = (pre ++ w) ++ (t ++ (rest ++ post)) := by
        rw [hreg]
        simp [List.append_assoc]
      rw [this]
      simp
    have hmem : ((pre ++ w).length, (pre ++ w).length + n) ∈
        flexAll (t :: ts') (pre ++ region ++ post) := by
      unfold flexAll
      rw [List.mem_filterMap]
      refine ⟨(pre ++ w).length, List.mem_range.mpr (by omega), ?_⟩
      rw [hdrop, hn]
      rfl
    have hall : flexAll (t :: ts') (pre ++ region ++ post) ≠ [] :=
      List.ne_nil_of_mem hmem
    exact selectNO_ne_nil hall

/-- Splitting a string around a slice. -/
theorem slice_decomp {cs : Str} {s e : Nat} (hse : s ≤ e) :
    cs = cs.take s ++ sliceStr cs s e ++ cs.drop e := by
  unfold sliceStr
  conv_lhs => rw [← List.take_append_drop s cs]
  rw [List.append_assoc]
  congr 1
  conv_lhs => rw [← List.take_append_drop (e - s) (cs.drop s)]
  congr 1
  rw [List.drop_drop]
  congr 1
  omega

/-- C6, counterexample to the claim as stated: search `"a  b"` differs from
the file's text `"a b"` only in intertoken whitespace (same token list) and
is not an exact substring of the content `"a b\na b"` — but the flexible
pattern matches twice, so the Matcher resolves nothing: the analyzer reports
the ambiguity error, not a score-95 resolution. -/
theorem ws_flexible_ambiguous_cex :
    tokenize "a b".data = flexTokens "a  b".data ∧
    isSubstr "a b\na b".data "a  b".data = false ∧
    (analyzeBlock [] (fun _ => true)
      (fun q => if q = "f".data then some "a b\na b".data else none)
      ⟨"f".data, "a  b".data, "c".data, none, none, 0, true⟩).2.status = "error" ∧
    (analyzeBlock [] (fun _ => true)
      (fun q => if q = "f".data then some "a b\na b".data else none)
      ⟨"f".data, "a  b".data, "c".data, none, none, 0, true⟩).1.valid_match = none ∧
    (analyzeBlock [] (fun _ => true)
      (fun q => if q = "f".data then some "a b\na b".data else none)
      ⟨"f".data, "a  b".data, "c".data, none, none, 0, true⟩).2.similarity_score ≠ some 95 :=
  ⟨by decide, by decide, by decide, by decide, by decide⟩

/-- C6 as amended: for a search text that differs from a region of the file
only in runs of whitespace and intertoken spacing (same token list) and is
not an exact substring, *and whose flexible pattern matches at most once in
the content*, the Matcher resolves at the whitespace-flexible regex stage:
the match exists (so there is exactly one), the verdict is a warning with
score 95, and `valid_match` is the actual matched substring of the file —
the file's own bytes, whitespace preserved. -/
theorem ws_flexible_unique_resolves (pats : List Str) (dirs : Str → Bool) (fs : FS)
    (b : PatchBlock) (content pre region post : Str)
    (hfs : fs b.filename = some content)
    (hni : isIgnored pats b.filename = false)
    (hrep : stripWS b.replace_block ≠ [])
    (hnosub : isSubstr content b.search_block = false)
    (hdec : content = pre ++ region ++ post)
    (htok : tokenize region = flexTokens b.search_block)
    (htne : flexTokens b.search_block ≠ [])
    (huniq : (flexMatch (flexTokens b.search_block) content).length ≤ 1) :
    ∃ s e, flexMatch (flexTokens b.search_block) content = [(s, e)] ∧
      (analyzeBlock pats dirs fs b).2.status = "warning" ∧
      (analyzeBlock pats dirs fs b).2.similarity_score = some 95 ∧
      (analyzeBlock pats dirs fs b).1.match_quality = 95 ∧
      (analyzeBlock pats dirs fs b).1.valid_match = some (sliceStr content s e) ∧
      (analyzeBlock pats dirs fs b).1.line_number = some (countNL (content.take s) + 1) ∧
      content = content.take s ++ sliceStr content s e ++ content.drop e := by
  have hsrch : stripWS b.search_block ≠ [] := by
    intro heq
    apply htne
    unfold flexTokens
    rw [heq]
    rfl
  have hnn : flexMatch (flexTokens b.search_block) content ≠ [] := by
    rw [hdec]
    exact flexMatch_ne_nil_of_region _ pre region post htok htne
  have hlen1 : (flexMatch (flexTokens b.search_block) content).length = 1 := by
    have hpos := List.length_pos.mpr hnn
    omega
  obtain ⟨m, hm⟩ := List.length_eq_one.mp hlen1
  obtain ⟨s, e⟩ := m
  have hmemM : (s, e) ∈ flexMatch (flexTokens b.search_block) content := by
    rw [hm]
    exact List.mem_singleton.mpr rfl
  have hmemA : (s, e) ∈ flexAll (flexTokens b.search_block) content :=
    mem_of_mem_selectNO _ 0 _ hmemM
  obtain ⟨hse, hel, _⟩ := mem_flexAll hmemA
  refine ⟨s, e, hm, ?_, ?_, ?_, ?_, ?_, slice_decomp hse⟩
  all_goals
    simp only [analyzeBlock, hni, hfs, hrep, hsrch, hnosub, htne, hm, Bool.false_eq_true,
      if_false, if_true]

/-- Witness for the amended C6: search `"a  b"` against file content
`"a b"` (one flexible match) resolves with score 95 and the file's own
text as `valid_match`. -/
theorem ws_flexible_unique_resolves_witness :
    ∃ s e, flexMatch (flexTokens "a  b".data) "a b".data = [(s, e)] ∧
      (analyzeBlock [] (fun _ => true)
        (fun q => if q = "f".data then some "a b".data else none)
        ⟨"f".data, "a  b".data, "c".data, none, none, 0, true⟩).2.status = "warning" ∧
      (analyzeBlock [] (fun _ => true)
        (fun q => if q = "f".data then some "a b".data else none)
        ⟨"f".data, "a  b".data, "c".data, none, none, 0, true⟩).2.similarity_score = some 95 ∧
      (analyzeBlock [] (fun _ => true)
        (fun q => if q = "f".data then some "a b".data else none)
        ⟨"f".data, "a  b".data, "c".data, none, none, 0, true⟩).1.match_quality = 95 ∧
      (analyzeBlock [] (fun _ => true)
        (fun q => if q = "f".data then some "a b".data else none)
        ⟨"f".data, "a  b".data, "c".data, none, none, 0, true⟩).1.valid_match =
        some (sliceStr "a b".data s e) ∧
      (analyzeBlock [] (fun _ => true)
        (fun q => if q = "f".data then some "a b".data else none)
        ⟨"f".data, "a  b".data, "c".data, none, none, 0, true⟩).1.line_number =
        some (countNL ("a b".data.take s) + 1) ∧
      "a b".data = "a b".data.take s ++ sliceStr "a b".data s e ++ "a b".data.drop e :=
  ws_flexible_unique_resolves [] (fun _ => true)
    (fun q => if q = "f".data then some "a b".data else none)
    ⟨"f".data, "a  b".data, "c".data, none, none, 0, true⟩
    "a b".data [] "a b".data []
    rfl rfl (by decide) (by decide) (by decide) (by decide) (by decide) (by decide)

end Patcher
